import Mathlib

/-!
Verification development for the leaf game-server framework.

Shallow embedding of the framing codec (`network/msg_parser`), the cron
expression parser and scheduler (`timer`), the channel RPC server/client
(`chanrpc`), the TCP/WebSocket connection write pipeline, and the module
lifecycle, together with theorems about the spec's testable properties.

Byte strings are modelled as `List Nat` (each entry a byte value), Go's
unsigned machine integers as `Nat` with explicit `% 2^w` where overflow can
occur, and fallible Go functions as `Except`/`Option` values.
-/

namespace Leaf

/-! ## Framing codec (MsgParser, src: network msg parser)

`MsgParser` carries the length-header width (`lenMsgLen`, in bytes), the
minimum and maximum payload lengths (`uint32` in Go, here `Nat`), and the
endianness flag. -/

structure MsgParser where
  lenMsgLen : Nat
  minMsgLen : Nat
  maxMsgLen : Nat
  littleEndian : Bool
  deriving Repr, DecidableEq

/-- `NewMsgParser`: width 2, min 1, max 4096, big-endian. -/
def NewMsgParser : MsgParser :=
  { lenMsgLen := 2, minMsgLen := 1, maxMsgLen := 4096, littleEndian := false }

/-- The `switch p.lenMsgLen` in `SetMsgLen` computing the largest value the
header can carry (`math.MaxUint8/16/32`); an unexpected width leaves the Go
`var max uint32` at its zero value. -/
def headerMax (lenMsgLen : Nat) : Nat :=
  if lenMsgLen = 1 then 255
  else if lenMsgLen = 2 then 65535
  else if lenMsgLen = 4 then 4294967295
  else 0

/-- `MsgParser.SetMsgLen`: install the width only when it is 1, 2 or 4,
install nonzero min/max arguments, then clamp both bounds to the largest
value the chosen header width can carry. -/
def MsgParser.SetMsgLen (p : MsgParser) (lenMsgLen minMsgLen maxMsgLen : Nat) :
    MsgParser :=
  let p := if lenMsgLen = 1 ∨ lenMsgLen = 2 ∨ lenMsgLen = 4 then
    { p with lenMsgLen := lenMsgLen } else p
  let p := if minMsgLen ≠ 0 then { p with minMsgLen := minMsgLen } else p
  let p := if maxMsgLen ≠ 0 then { p with maxMsgLen := maxMsgLen } else p
  let mx := headerMax p.lenMsgLen
  let p := if p.minMsgLen > mx then { p with minMsgLen := mx } else p
  if p.maxMsgLen > mx then { p with maxMsgLen := mx } else p

/-- Header encoding: the `switch p.lenMsgLen` of `MsgParser.Write`.  Width 1
truncates via `byte(msgLen)`, width 2 via `uint16(msgLen)`
(`binary.…Endian.PutUint16`), width 4 writes the full `uint32`. -/
def MsgParser.putLen (p : MsgParser) (msgLen : Nat) : List Nat :=
  if p.lenMsgLen = 1 then [msgLen % 256]
  else if p.lenMsgLen = 2 then
    if p.littleEndian then [msgLen % 256, msgLen / 256 % 256]
    else [msgLen / 256 % 256, msgLen % 256]
  else if p.lenMsgLen = 4 then
    if p.littleEndian then
      [msgLen % 256, msgLen / 256 % 256, msgLen / 65536 % 256, msgLen / 16777216 % 256]
    else
      [msgLen / 16777216 % 256, msgLen / 65536 % 256, msgLen / 256 % 256, msgLen % 256]
  else []

/-- Header decoding: the `switch p.lenMsgLen` of `MsgParser.Read`
(`binary.…Endian.Uint16/Uint32`). -/
def MsgParser.getLen (p : MsgParser) (b : List Nat) : Nat :=
  if p.lenMsgLen = 1 then b.getD 0 0
  else if p.lenMsgLen = 2 then
    if p.littleEndian then b.getD 0 0 + b.getD 1 0 * 256
    else b.getD 0 0 * 256 + b.getD 1 0
  else if p.lenMsgLen = 4 then
    if p.littleEndian then
      b.getD 0 0 + b.getD 1 0 * 256 + b.getD 2 0 * 65536 + b.getD 3 0 * 16777216
    else
      b.getD 0 0 * 16777216 + b.getD 1 0 * 65536 + b.getD 2 0 * 256 + b.getD 3 0
  else 0

/-- The `uint32` running sum of the argument buffer lengths in
`MsgParser.Write` (`msgLen += uint32(len(args[i]))` wraps modulo `2^32`). -/
def sumLen32 (args : List (List Nat)) : Nat :=
  args.foldl (fun acc a => (acc + a.length % 4294967296) % 4294967296) 0

/-- `MsgParser.Read` over an incoming byte stream: pull the header, decode
the length, reject lengths outside `[minMsgLen, maxMsgLen]`, then pull
exactly that many payload bytes.  Returns the payload and the unread rest of
the stream; an exhausted stream is the `io.ReadFull` error path. -/
def MsgParser.read (p : MsgParser) (s : List Nat) :
    Except String (List Nat × List Nat) :=
  if s.length < p.lenMsgLen then .error "short read"
  else
    let msgLen := p.getLen (s.take p.lenMsgLen)
    if msgLen > p.maxMsgLen then .error "message too long"
    else if msgLen < p.minMsgLen then .error "message too short"
    else
      let rest := s.drop p.lenMsgLen
      if rest.length < msgLen then .error "short read"
      else .ok (rest.take msgLen, rest.drop msgLen)

/-- The frame `MsgParser.Write` assembles before handing it to
`conn.Write`: the `uint32` sum of the buffer lengths is bounds-checked, then
the header and the concatenated payload fill one contiguous buffer.  (The
copy loop coincides with plain concatenation whenever the true sum is below
`2^32`, which holds in every theorem below.) -/
def MsgParser.write (p : MsgParser) (args : List (List Nat)) :
    Except String (List Nat) :=
  let msgLen := sumLen32 args
  if msgLen > p.maxMsgLen then .error "message too long"
  else if msgLen < p.minMsgLen then .error "message too short"
  else .ok (p.putLen msgLen ++ args.flatten)

/-! ## Connections and the asynchronous writer (TCP and WebSocket)

A connection owns a bounded write queue (`writeChan`, capacity `chanCap`), a
`closeFlag`, and the underlying transport.  Queue entries are `Option`s: Go's
`nil` buffer — the writer task's shutdown sentinel — is `none`.  The
transport-side effects of `doDestroy` (`SetLinger(0)`, `conn.Close()`,
`close(writeChan)`) are recorded as flags. -/

structure TCPConnState where
  writeChan : List (Option (List Nat))
  chanCap : Nat
  closeFlag : Bool
  lingerZero : Bool
  transportClosed : Bool
  chanClosed : Bool
  deriving Repr, DecidableEq

/-- `TCPConn.doDestroy`: linger-0 close of the transport; if the connection
was not yet flagged closed, also close the write queue and flag it. -/
def TCPConn.doDestroy (st : TCPConnState) : TCPConnState :=
  let st := { st with lingerZero := true, transportClosed := true }
  if ¬st.closeFlag then { st with chanClosed := true, closeFlag := true } else st

/-- `TCPConn.doWrite`: a full queue force-destroys the connection instead of
enqueueing; otherwise the buffer is appended to the queue. -/
def TCPConn.doWrite (st : TCPConnState) (b : Option (List Nat)) : TCPConnState :=
  if st.writeChan.length = st.chanCap then TCPConn.doDestroy st
  else { st with writeChan := st.writeChan ++ [b] }

/-- `TCPConn.Write`: under the lock, drop the write when the connection is
closed or the buffer is `nil`. -/
def TCPConn.Write (st : TCPConnState) (b : Option (List Nat)) : TCPConnState :=
  if st.closeFlag ∨ b = none then st else TCPConn.doWrite st b

/-- `TCPConn.Close`: enqueue the `nil` sentinel and flag closed (idempotent). -/
def TCPConn.Close (st : TCPConnState) : TCPConnState :=
  if st.closeFlag then st
  else { TCPConn.doWrite st none with closeFlag := true }

/-- `MsgParser.Write` against a live connection: bounds-check and assemble
the frame, then hand it to `TCPConn.Write` and report `nil`. -/
def MsgParser.writeConn (p : MsgParser) (st : TCPConnState) (args : List (List Nat)) :
    Except String Unit × TCPConnState :=
  match p.write args with
  | .error e => (.error e, st)
  | .ok msg => (.ok (), TCPConn.Write st (some msg))

/-- WebSocket connection state: same writer pipeline, but the codec is the
WebSocket frame boundary and only `maxMsgLen` is configured. -/
structure WSConnState where
  writeChan : List (Option (List Nat))
  chanCap : Nat
  maxMsgLen : Nat
  closeFlag : Bool
  lingerZero : Bool
  transportClosed : Bool
  chanClosed : Bool
  deriving Repr, DecidableEq

/-- `WSConn.doDestroy`. -/
def WSConn.doDestroy (st : WSConnState) : WSConnState :=
  let st := { st with lingerZero := true, transportClosed := true }
  if ¬st.closeFlag then { st with chanClosed := true, closeFlag := true } else st

/-- `WSConn.doWrite`: identical backpressure policy to the TCP side. -/
def WSConn.doWrite (st : WSConnState) (b : Option (List Nat)) : WSConnState :=
  if st.writeChan.length = st.chanCap then WSConn.doDestroy st
  else { st with writeChan := st.writeChan ++ [b] }

/-- `WSConn.WriteMsg`: a closed connection returns `nil` at once; otherwise
the `uint32` sum of the buffer lengths is checked against `[1, maxMsgLen]`,
a single buffer is enqueued as is, and several buffers are merged first. -/
def WSConn.WriteMsg (st : WSConnState) (args : List (List Nat)) :
    Except String Unit × WSConnState :=
  if st.closeFlag then (.ok (), st)
  else
    let msgLen := sumLen32 args
    if msgLen > st.maxMsgLen then (.error "message too long", st)
    else if msgLen < 1 then (.error "message too short", st)
    else if args.length = 1 then (.ok (), WSConn.doWrite st (some (args.getD 0 [])))
    else (.ok (), WSConn.doWrite st (some args.flatten))

/-! ## Channel RPC (chanrpc)

Argument and result values are modelled abstractly as `Nat`.  A registered
function has one of the three Go shapes; a shape's body returns
`Except String _`, where `.error pv` models a panic with value `pv`
(rendered by `fmt`'s `%v`). -/

abbrev Val := Nat

/-- The Go result `interface{}` slot of `RetInfo`: `nil`, a single value, or
a slice of values. -/
inductive RetV where
  | vnil
  | one (v : Val)
  | many (vs : List Val)
  deriving Repr, DecidableEq

/-- The three registrable function shapes of `chanrpc.Server`. -/
inductive GoFunc where
  | f0 (g : List Val → Except String Unit)
  | f1 (g : List Val → Except String Val)
  | f2 (g : List Val → Except String (List Val))

/-- Shape index used by `Client.f`'s type switch: 0, 1 or 2. -/
def GoFunc.kind : GoFunc → Nat
  | .f0 _ => 0
  | .f1 _ => 1
  | .f2 _ => 2

/-- Running `ci.f.(…)(ci.args)`: the `switch ci.f.(type)` of `Server.exec`,
propagating a panic. -/
def GoFunc.run : GoFunc → List Val → Except String RetV
  | .f0 g, a => (g a).map fun _ => .vnil
  | .f1 g, a => (g a).map .one
  | .f2 g, a => (g a).map .many

/-- A callback value: its arity tag (`func(error)` / `func(interface{},
error)` / `func([]interface{}, error)`) plus an opaque identity, so that
"the supplied callback is invoked" is expressible. -/
structure Callback where
  kind : Nat
  ident : Nat
  deriving Repr, DecidableEq

/-- Which reply channel a `CallInfo` carries: none (fire-and-forget), the
client's one-slot sync channel, or the client's async-reply channel. -/
inductive RetChan where
  | noChan
  | syncChan
  | asynChan
  deriving Repr, DecidableEq

/-- `chanrpc.CallInfo`. -/
structure CallInfo where
  f : GoFunc
  args : List Val
  chanRet : RetChan
  cb : Option Callback

/-- `chanrpc.RetInfo`. -/
structure RetInfo where
  ret : RetV
  err : Option String
  cb : Option Callback
  deriving Repr, DecidableEq

/-- `Server.ret ci ri`: when a reply channel is present, mirror `ci.cb` into
the result and emit it on that channel (the model keeps the channel open, so
the send never panics).  Returns the list of emitted replies. -/
def Server.ret (ci : CallInfo) (ri : RetInfo) : List RetInfo :=
  match ci.chanRet with
  | .noChan => []
  | _ => [{ ri with cb := ci.cb }]

/-- The error message `Server.exec` builds under `recover`: the panic value,
with the stack trace appended when `conf.LenStackBuf > 0`.  The stack-buffer
contents are a parameter. -/
def panicTraceMsg (lenStackBuf : Nat) (stack : String) (pv : String) : String :=
  if 0 < lenStackBuf then pv ++ ": " ++ stack else pv

/-- `Server.exec ci`: run the target function; on normal return emit the
result through `Server.ret`; on panic return the stack-trace-formatted error
(which `Server.Exec` logs) while the reply channel receives
`fmt.Errorf("%v", r)` — the panic value alone.  Result: `(exec's error
return, replies emitted)`. -/
def Server.exec (lenStackBuf : Nat) (stack : String) (ci : CallInfo) :
    Option String × List RetInfo :=
  match ci.f.run ci.args with
  | .ok rv => (none, Server.ret ci { ret := rv, err := none, cb := none })
  | .error pv =>
      (some (panicTraceMsg lenStackBuf stack pv),
       Server.ret ci { ret := .vnil, err := some pv, cb := none })

/-- `chanrpc.Server` state: the registration map and the bounded request
queue. -/
structure ServerState where
  functions : List (String × GoFunc)
  chanCall : List CallInfo
  callCap : Nat

/-- `chanrpc.Client` state: the pending-async counter and the bounded
async-reply queue (`cap(ChanAsynRet) = asynCap`). -/
structure ClientState where
  pendingAsynCall : Int
  asynCap : Nat
  chanAsynRet : List RetInfo

/-- Outcome of an `AsynCall`: the updated client and server, plus the
`RetInfo` handed to `execCb` immediately (the overflow short-circuit), if
any. -/
structure AsynOut where
  client : ClientState
  server : ServerState
  immediate : Option RetInfo

/-- `Client.f`: look the id up in the attached server's registration map and
check its shape against the requested arity. -/
def Client.lookupF (s : ServerState) (id : String) (n : Nat) :
    Except String GoFunc :=
  match (s.functions.find? fun kv => kv.1 = id) with
  | none => .error ("function id " ++ id ++ ": function not registered")
  | some kv =>
      if kv.2.kind = n then .ok kv.2
      else .error ("function id " ++ id ++ ": return type mismatch")

/-- `Client.call` with `block = false`: the non-blocking `select` send on the
server's buffered request queue succeeds exactly when the queue is not full. -/
def Client.callNonblock (s : ServerState) (ci : CallInfo) :
    Except String ServerState :=
  if s.chanCall.length < s.callCap then .ok { s with chanCall := s.chanCall ++ [ci] }
  else .error "chanrpc channel full"

/-- `Client.asynCall`: resolve the function (failures are delivered on the
async-reply queue), then offer the call non-blockingly (a full server queue
is also delivered on the async-reply queue). -/
def Client.asynCall (c : ClientState) (s : ServerState) (id : String)
    (args : List Val) (cb : Callback) : ClientState × ServerState :=
  match Client.lookupF s id cb.kind with
  | .error e =>
      ({ c with chanAsynRet := c.chanAsynRet ++ [⟨.vnil, some e, some cb⟩] }, s)
  | .ok f =>
      match Client.callNonblock s { f := f, args := args, chanRet := .asynChan, cb := some cb } with
      | .ok s' => (c, s')
      | .error e =>
          ({ c with chanAsynRet := c.chanAsynRet ++ [⟨.vnil, some e, some cb⟩] }, s)

/-- `Client.AsynCall` (the callback argument already split off and
type-switched into `cb`): when the pending-async counter has reached the
async-reply queue's capacity, hand `execCb` a *too many calls* `RetInfo`
at once and change nothing; otherwise dispatch `asynCall` and increment the
counter. -/
def Client.AsynCall (c : ClientState) (s : ServerState) (id : String)
    (args : List Val) (cb : Callback) : AsynOut :=
  if c.pendingAsynCall ≥ (c.asynCap : Int) then
    { client := c, server := s,
      immediate := some ⟨.vnil, some "too many calls", some cb⟩ }
  else
    let cs := Client.asynCall c s id args cb
    { client := { cs.1 with pendingAsynCall := cs.1.pendingAsynCall + 1 },
      server := cs.2, immediate := none }

/-! ## Module lifecycle (module)

A registered module is identified by `id`; `onDestroyRes` is the outcome of
its `OnDestroy` hook (`.error pv` models a panic with value `pv`).  `Destroy`
is modelled as the trace of observable lifecycle events it performs. -/

structure ModuleRec where
  id : Nat
  onDestroyRes : Except String Unit

/-- Observable events of the teardown path: `m.closeSig <- true`,
`m.wg.Wait()`, the `OnDestroy` invocation, and the recover-and-log of a
panicking `OnDestroy`. -/
inductive LifeEvent where
  | sendClose (id : Nat)
  | waitRun (id : Nat)
  | onDestroy (id : Nat)
  | logRecovered (id : Nat) (pv : String)
  deriving Repr, DecidableEq

/-- `module.destroy m`: invoke `OnDestroy` under a `recover`; a panic is
caught and logged, never propagated (the trace always continues). -/
def destroyModule (m : ModuleRec) : List LifeEvent :=
  match m.onDestroyRes with
  | .ok _ => [.onDestroy m.id]
  | .error pv => [.onDestroy m.id, .logRecovered m.id pv]

/-- One iteration of `Destroy`'s loop body for module `m`: send the close
signal, wait for `Run` to return, then `destroy(m)`. -/
def destroySteps (m : ModuleRec) : List LifeEvent :=
  .sendClose m.id :: .waitRun m.id :: destroyModule m

/-- The `for i := len(mods) - 1; i >= 0; i--` loop of `module.Destroy`,
walking indices `i-1, …, 0`. -/
def destroyFrom (mods : List ModuleRec) : Nat → List LifeEvent
  | 0 => []
  | i + 1 => destroySteps (mods.getD i ⟨0, .ok ()⟩) ++ destroyFrom mods i

/-- `module.Destroy` over the registration list `mods`. -/
def ModuleDestroy (mods : List ModuleRec) : List LifeEvent :=
  destroyFrom mods mods.length

/-! ## Civil time (the fragment of Go `time` that the cron scheduler uses)

Instants are whole seconds, kept in civil fields exactly as the scheduler
reads them (`Year/Month/Day/Hour/Minute/Second/Weekday`).  `Month` is 1–12
(January = 1) and `Weekday` 0–6 (Sunday = 0), as in Go. -/

structure GoTime where
  year : Int
  month : Nat
  day : Nat
  hour : Nat
  min : Nat
  sec : Nat
  deriving Repr, DecidableEq

/-- Go's zero `time.Time`: January 1, year 1, 00:00:00. -/
def goZeroTime : GoTime := ⟨1, 1, 1, 0, 0, 0⟩

/-- Gregorian leap year, as in Go `time.isLeap`. -/
def isLeap (y : Int) : Bool := y % 4 = 0 && (y % 100 ≠ 0 || y % 400 = 0)

/-- Days in a month, as in Go `time.daysIn`. -/
def daysInMonth (y : Int) (m : Nat) : Nat :=
  if m = 2 then (if isLeap y then 29 else 28)
  else if m = 4 ∨ m = 6 ∨ m = 9 ∨ m = 11 then 30
  else 31

theorem daysInMonth_pos (y : Int) (m : Nat) : 0 < daysInMonth y m := by
  unfold daysInMonth; split <;> [split; skip] <;> [omega; omega; split <;> omega]

/-- A civil tuple whose fields are in range (what every `time.Time` the
scheduler manipulates satisfies). -/
def GoTime.Valid (t : GoTime) : Prop :=
  1 ≤ t.month ∧ t.month ≤ 12 ∧ 1 ≤ t.day ∧ t.day ≤ daysInMonth t.year t.month ∧
    t.hour ≤ 23 ∧ t.min ≤ 59 ∧ t.sec ≤ 59

instance (t : GoTime) : Decidable t.Valid := by unfold GoTime.Valid; infer_instance

/-- A mixed-radix linearisation of the civil fields.  On valid tuples it
orders instants chronologically, so `lin s < lin t` is the model of
Go's `s.Before(t)`. -/
def GoTime.lin (t : GoTime) : Int :=
  ((((t.year * 13 + t.month) * 32 + t.day) * 24 + t.hour) * 60 + t.min) * 60 + t.sec

/-- Day-overflow normalisation of Go `time.Date`: roll a too-large
day-of-month into the following months.  The fuel is structural so that the
kernel can evaluate the definition; every roll removes at least 28 days, so
`d` itself is always enough fuel. -/
def rollDayAux : Nat → Int → Nat → Nat → Int × Nat × Nat
  | 0, y, m, d => (y, m, d)
  | fuel + 1, y, m, d =>
    if daysInMonth y m < d then
      if m = 12 then rollDayAux fuel (y + 1) 1 (d - daysInMonth y m)
      else rollDayAux fuel y (m + 1) (d - daysInMonth y m)
    else (y, m, d)

/-- Day-overflow normalisation of Go `time.Date`. -/
def rollDay (y : Int) (m d : Nat) : Int × Nat × Nat :=
  rollDayAux d y m d

/-- `t.AddDate(0, 1, 0)`: bump the month (with year carry), then normalise a
day that overflows the new month. -/
def addMonth (t : GoTime) : GoTime :=
  if t.month = 12 then
    { t with year := (rollDay (t.year + 1) 1 t.day).1,
             month := (rollDay (t.year + 1) 1 t.day).2.1,
             day := (rollDay (t.year + 1) 1 t.day).2.2 }
  else
    { t with year := (rollDay t.year (t.month + 1) t.day).1,
             month := (rollDay t.year (t.month + 1) t.day).2.1,
             day := (rollDay t.year (t.month + 1) t.day).2.2 }

/-- `t.AddDate(0, 0, 1)`. -/
def addDay (t : GoTime) : GoTime :=
  { t with year := (rollDay t.year t.month (t.day + 1)).1,
           month := (rollDay t.year t.month (t.day + 1)).2.1,
           day := (rollDay t.year t.month (t.day + 1)).2.2 }

/-- `t.Add(time.Hour)` on whole-second instants. -/
def addHour (t : GoTime) : GoTime :=
  if t.hour < 23 then { t with hour := t.hour + 1 }
  else { addDay t with hour := 0 }

/-- `t.Add(time.Minute)` on whole-second instants. -/
def addMinute (t : GoTime) : GoTime :=
  if t.min < 59 then { t with min := t.min + 1 }
  else addHour { t with min := 0 }

/-- `t.Add(time.Second)` on whole-second instants; also the
`t.Truncate(time.Second).Add(time.Second)` bump opening `CronExpr.Next`. -/
def addSecond (t : GoTime) : GoTime :=
  if t.sec < 59 then { t with sec := t.sec + 1 }
  else addMinute { t with sec := 0 }

/-- `time.Date(t.Year(), t.Month(), 1, 0, 0, 0, 0, loc)`. -/
def firstOfMonth (t : GoTime) : GoTime :=
  { t with day := 1, hour := 0, min := 0, sec := 0 }

/-- `time.Date(t.Year(), t.Month(), t.Day(), 0, 0, 0, 0, loc)`. -/
def midnight (t : GoTime) : GoTime :=
  { t with hour := 0, min := 0, sec := 0 }

/-- `t.Truncate(time.Hour)`. -/
def truncHour (t : GoTime) : GoTime := { t with min := 0, sec := 0 }

/-- `t.Truncate(time.Minute)`. -/
def truncMinute (t : GoTime) : GoTime := { t with sec := 0 }

/-- Days since 1970-01-01 of a civil date (Gregorian, proleptic); the
standard era/year-of-era computation. -/
def daysFromCivil (y : Int) (m d : Nat) : Int :=
  let y : Int := if m ≤ 2 then y - 1 else y
  let era : Int := (if 0 ≤ y then y else y - 399) / 400
  let yoe : Int := y - era * 400
  let doy : Int := (153 * (((m : Int) + 9) % 12) + 2) / 5 + (d : Int) - 1
  let doe : Int := yoe * 365 + yoe / 4 - yoe / 100 + doy
  era * 146097 + doe - 719468

/-- `t.Weekday()`: 0 = Sunday, …, 6 = Saturday (1970-01-01 was a Thursday). -/
def GoTime.weekday (t : GoTime) : Nat :=
  ((daysFromCivil t.year t.month t.day + 4) % 7).toNat

/-! ## Cron expressions (timer) -/

/-- A parsed six-field cron expression: one 64-bit mask per field. -/
structure CronExpr where
  sec : Nat
  min : Nat
  hour : Nat
  dom : Nat
  month : Nat
  dow : Nat
  deriving Repr, DecidableEq

/-- `strconv.Atoi` on the inputs the cron parser feeds it: optional sign,
then decimal digits. -/
def goAtoi (s : String) : Option Int :=
  match s.toList with
  | [] => none
  | c :: rest =>
      let digits := if c = '-' ∨ c = '+' then rest else c :: rest
      let sign : Int := if c = '-' then -1 else 1
      if digits = [] then none
      else if digits.all Char.isDigit then
        some (sign * ((digits.foldl (fun acc ch => acc * 10 + (ch.toNat - 48)) 0 : Nat) : Int))
      else none

/-- Character-level splitting (structural, so the kernel can evaluate it):
cut the list at every character satisfying `p`, keeping empty pieces. -/
def splitPredAux (p : Char → Bool) : List Char → List Char → List (List Char)
  | acc, [] => [acc.reverse]
  | acc, x :: xs =>
      if p x then acc.reverse :: splitPredAux p [] xs
      else splitPredAux p (x :: acc) xs

/-- `strings.Split(s, sep)` for a single-character separator. -/
def goSplitChar (s : String) (c : Char) : List String :=
  (splitPredAux (· = c) [] s.toList).map String.mk

/-- `strings.Fields`: split around runs of white space. -/
def goFields (s : String) : List String :=
  ((splitPredAux Char.isWhitespace [] s.toList).map String.mk).filter (· ≠ "")

/-- The `for i := start; i <= end; i += incr` bit loop of `parseCronField`;
`incr1` is the increment minus one, so the step is always positive.  Fuel is
structural for kernel evaluation; `i` advances by at least one per
iteration, so `stop + 1 - i` iterations always suffice. -/
def stepBitsAux : Nat → Nat → Nat → Nat → Nat
  | 0, _, _, _ => 0
  | fuel + 1, stop, incr1, i =>
    if i ≤ stop then (1 <<< i) ||| stepBitsAux fuel stop incr1 (i + incr1 + 1) else 0

/-- The `for i := start; i <= end; i += incr` bit loop. -/
def stepBits (stop incr1 : Nat) (i : Nat) : Nat :=
  stepBitsAux (stop + 1 - i) stop incr1 i

/-- The contiguous mask `^(MaxUint64 << (stop+1)) & (MaxUint64 << start)`. -/
def rangeMask (start stop : Nat) : Nat :=
  let full : Nat := 18446744073709551615
  (full ^^^ ((full <<< (stop + 1)) % 18446744073709551616)) &&&
    ((full <<< start) % 18446744073709551616)

/-- One comma-separated term of a cron field: `RANGE` or `RANGE/STEP`, with
`RANGE` one of `*`, `N`, `N-N`, `N/STEP` (= `N-max/STEP`). -/
def parseCronTerm (mn mx : Nat) (field : String) : Except String Nat :=
  let rangeAndIncr := goSplitChar field '/'
  if rangeAndIncr.length > 2 then .error "too many slashes"
  else
    let startAndEnd := goSplitChar (rangeAndIncr.getD 0 "") '-'
    if startAndEnd.length > 2 then .error "too many hyphens"
    else
      let se : Except String (Int × Int) :=
        if startAndEnd.getD 0 "" = "*" then
          if startAndEnd.length ≠ 1 then .error "invalid range"
          else .ok ((mn : Int), (mx : Int))
        else
          match goAtoi (startAndEnd.getD 0 "") with
          | none => .error "invalid range"
          | some st =>
              if startAndEnd.length = 1 then
                if rangeAndIncr.length = 2 then .ok (st, (mx : Int)) else .ok (st, st)
              else
                match goAtoi (startAndEnd.getD 1 "") with
                | none => .error "invalid range"
                | some en => .ok (st, en)
      match se with
      | .error e => .error e
      | .ok (st, en) =>
          if st > en then .error "invalid range"
          else if st < (mn : Int) then .error "out of range"
          else if en > (mx : Int) then .error "out of range"
          else
            let incr : Except String Int :=
              if rangeAndIncr.length = 1 then .ok 1
              else
                match goAtoi (rangeAndIncr.getD 1 "") with
                | none => .error "invalid increment"
                | some k => if k ≤ 0 then .error "invalid increment" else .ok k
            match incr with
            | .error e => .error e
            | .ok k =>
                if k = 1 then .ok (rangeMask st.toNat en.toNat)
                else .ok (stepBits en.toNat (k.toNat - 1) st.toNat)

/-- `parseCronField`: OR together the masks of all comma-separated terms. -/
def parseCronField (field : String) (mn mx : Nat) : Except String Nat :=
  (goSplitChar field ',').foldlM (fun acc f => (parseCronTerm mn mx f).map (acc ||| ·)) 0

/-- `NewCronExpr`: 5 or 6 whitespace-separated fields, the seconds field
defaulting to `"0"`, each field parsed over its domain. -/
def NewCronExpr (expr : String) : Except String CronExpr := do
  let fields := goFields expr
  if fields.length ≠ 5 ∧ fields.length ≠ 6 then .error "expected 5 or 6 fields"
  else
    let fields := if fields.length = 5 then "0" :: fields else fields
    let sec ← parseCronField (fields.getD 0 "") 0 59
    let mn ← parseCronField (fields.getD 1 "") 0 59
    let hour ← parseCronField (fields.getD 2 "") 0 23
    let dom ← parseCronField (fields.getD 3 "") 1 31
    let month ← parseCronField (fields.getD 4 "") 1 12
    let dow ← parseCronField (fields.getD 5 "") 0 6
    pure ⟨sec, mn, hour, dom, month, dow⟩

/-- `CronExpr.matchDay`: the sentinel mask `0xfffffffe` on day-of-month
defers entirely to day-of-week, the sentinel `0x7f` on day-of-week defers
entirely to day-of-month, and otherwise the two dimensions are disjunctive. -/
def CronExpr.matchDay (e : CronExpr) (t : GoTime) : Bool :=
  if e.dom = 4294967294 then (1 <<< t.weekday) &&& e.dow != 0
  else if e.dow = 127 then (1 <<< t.day) &&& e.dom != 0
  else ((1 <<< t.weekday) &&& e.dow != 0) || ((1 <<< t.day) &&& e.dom != 0)

/-- Stated from the spec's words, for comparison with the source's
`CronExpr.matchDay`: "Day matching is disjunctive between day-of-month and
day-of-week unless exactly one of the two was left as `*`: in that case only
the specified one is honored."  `domStar`/`dowStar` say whether the
day-of-month / day-of-week field was written exactly `*`. -/
def specMatchDay (domStar dowStar : Bool) (dom dow : Nat) (t : GoTime) : Bool :=
  if domStar && !dowStar then (1 <<< t.weekday) &&& dow != 0
  else if dowStar && !domStar then (1 <<< t.day) &&& dom != 0
  else ((1 <<< t.weekday) &&& dow != 0) || ((1 <<< t.day) &&& dom != 0)

/-! ### `CronExpr.Next`

The five `for` loops of `Next` are phase functions; `goto retry` is the
`.retry` constructor, falling through to the next loop is `.cont`.  Each
phase carries the shared `initFlag`.  Phase fuel is an upper bound on the
loop's iteration count (every loop wraps into `.retry` within the size of
its field's domain), so exhaustion is unreachable; the outer fuel of
`nextAux` bounds the number of `retry` rounds, which the year cut-off keeps
far below the chosen constant. -/

inductive PhaseRes where
  | retry (flag : Bool) (t : GoTime)
  | cont (flag : Bool) (t : GoTime)
  deriving Repr, DecidableEq

/-- The `// Month` loop of `Next`. -/
def monthPhase (e : CronExpr) : Nat → Bool → GoTime → PhaseRes
  | 0, flag, t => .cont flag t
  | fuel + 1, flag, t =>
    if (1 <<< t.month) &&& e.month ≠ 0 then .cont flag t
    else
      let t2 := addMonth (if flag then t else firstOfMonth t)
      if t2.month = 1 then .retry true t2
      else monthPhase e fuel true t2

/-- The `// Day` loop of `Next`. -/
def dayPhase (e : CronExpr) : Nat → Bool → GoTime → PhaseRes
  | 0, flag, t => .cont flag t
  | fuel + 1, flag, t =>
    if e.matchDay t then .cont flag t
    else
      let t2 := addDay (if flag then t else midnight t)
      if t2.day = 1 then .retry true t2
      else dayPhase e fuel true t2

/-- The `// Hours` loop of `Next`. -/
def hourPhase (e : CronExpr) : Nat → Bool → GoTime → PhaseRes
  | 0, flag, t => .cont flag t
  | fuel + 1, flag, t =>
    if (1 <<< t.hour) &&& e.hour ≠ 0 then .cont flag t
    else
      let t2 := addHour (if flag then t else truncHour t)
      if t2.hour = 0 then .retry true t2
      else hourPhase e fuel true t2

/-- The `// Minutes` loop of `Next`. -/
def minutePhase (e : CronExpr) : Nat → Bool → GoTime → PhaseRes
  | 0, flag, t => .cont flag t
  | fuel + 1, flag, t =>
    if (1 <<< t.min) &&& e.min ≠ 0 then .cont flag t
    else
      let t2 := addMinute (if flag then t else truncMinute t)
      if t2.min = 0 then .retry true t2
      else minutePhase e fuel true t2

/-- The `// Seconds` loop of `Next` (no truncation: the instant is already
on a whole second). -/
def secPhase (e : CronExpr) : Nat → Bool → GoTime → PhaseRes
  | 0, flag, t => .cont flag t
  | fuel + 1, flag, t =>
    if (1 <<< t.sec) &&& e.sec ≠ 0 then .cont flag t
    else
      let t2 := addSecond t
      if t2.sec = 0 then .retry true t2
      else secPhase e fuel true t2

/-- The `retry:` label of `Next`: give up with the zero instant once the
year exceeds the start year by more than one, otherwise run the five phases
in order, restarting on any `.retry`. -/
def nextAux (e : CronExpr) (startYear : Int) : Nat → Bool → GoTime → GoTime
  | 0, _, _ => goZeroTime
  | fuel + 1, flag, t =>
    if startYear + 1 < t.year then goZeroTime
    else
      match monthPhase e 13 flag t with
      | .retry f1 t1 => nextAux e startYear fuel f1 t1
      | .cont f1 t1 =>
        match dayPhase e 400 f1 t1 with
        | .retry f2 t2 => nextAux e startYear fuel f2 t2
        | .cont f2 t2 =>
          match hourPhase e 25 f2 t2 with
          | .retry f3 t3 => nextAux e startYear fuel f3 t3
          | .cont f3 t3 =>
            match minutePhase e 61 f3 t3 with
            | .retry f4 t4 => nextAux e startYear fuel f4 t4
            | .cont f4 t4 =>
              match secPhase e 61 f4 t4 with
              | .retry f5 t5 => nextAux e startYear fuel f5 t5
              | .cont _ t5 => t5

/-- `CronExpr.Next t`: bump to the next whole second, then search. -/
def CronExpr.Next (e : CronExpr) (t : GoTime) : GoTime :=
  let t1 := addSecond t
  nextAux e t1.year 4000000 false t1

deriving instance DecidableEq for Except

/-! ## Theorems -/

/-- **C4**: once the pending-async counter has reached the capacity of the
async-reply queue, a further `AsynCall` enqueues nothing on the attached
server's request queue, invokes the supplied callback immediately with the
error *too many calls*, and leaves the pending counter (and all other
state) unchanged. -/
theorem asynCall_overflow (c : ClientState) (s : ServerState) (id : String)
    (args : List Val) (cb : Callback)
    (h : (c.asynCap : Int) ≤ c.pendingAsynCall) :
    Client.AsynCall c s id args cb =
      { client := c, server := s,
        immediate := some ⟨.vnil, some "too many calls", some cb⟩ } := by
  unfold Client.AsynCall
  rw [if_pos h]

/-- Witness for `asynCall_overflow`: a client with capacity 1 and one call
in flight. -/
theorem asynCall_overflow_witness :
    ((((1 : Nat) : Int) ≤ (1 : Int)) ∧
      Client.AsynCall ⟨1, 1, []⟩ ⟨[], [], 4⟩ "f" [2, 3] ⟨0, 7⟩ =
        { client := ⟨1, 1, []⟩, server := ⟨[], [], 4⟩,
          immediate := some ⟨.vnil, some "too many calls", some ⟨0, 7⟩⟩ }) :=
  ⟨by norm_num, asynCall_overflow ⟨1, 1, []⟩ ⟨[], [], 4⟩ "f" [2, 3] ⟨0, 7⟩ (by norm_num)⟩

/-- `TCPConn.doDestroy` leaves the queue contents alone, closes the
transport with linger 0, and closes the queue when not already closed. -/
theorem tcp_doDestroy_fields (st : TCPConnState) :
    (TCPConn.doDestroy st).writeChan = st.writeChan ∧
    (TCPConn.doDestroy st).lingerZero = true ∧
    (TCPConn.doDestroy st).transportClosed = true ∧
    (st.closeFlag = false → (TCPConn.doDestroy st).chanClosed = true) := by
  simp only [TCPConn.doDestroy]
  split_ifs <;> simp_all

/-- `WSConn.doDestroy` field effects. -/
theorem ws_doDestroy_fields (st : WSConnState) :
    (WSConn.doDestroy st).writeChan = st.writeChan ∧
    (WSConn.doDestroy st).lingerZero = true ∧
    (WSConn.doDestroy st).transportClosed = true ∧
    (st.closeFlag = false → (WSConn.doDestroy st).chanClosed = true) := by
  simp only [WSConn.doDestroy]
  split_ifs <;> simp_all

/-- **C5**: the write queue never exceeds its capacity: `doWrite` preserves
`length ≤ cap`, and when the queue is exactly full the buffer is not
enqueued and the connection is force-destroyed (linger-0 transport close
and closing of the write queue), on both the TCP and the WebSocket
connection. -/
theorem doWrite_bounded (st : TCPConnState) (wst : WSConnState)
    (b bw : Option (List Nat))
    (hT : st.writeChan.length ≤ st.chanCap)
    (hW : wst.writeChan.length ≤ wst.chanCap) :
    ((TCPConn.doWrite st b).writeChan.length ≤ st.chanCap ∧
      (st.writeChan.length = st.chanCap →
        TCPConn.doWrite st b = TCPConn.doDestroy st ∧
        (TCPConn.doWrite st b).writeChan = st.writeChan ∧
        (TCPConn.doWrite st b).lingerZero = true ∧
        (TCPConn.doWrite st b).transportClosed = true ∧
        (st.closeFlag = false → (TCPConn.doWrite st b).chanClosed = true))) ∧
    ((WSConn.doWrite wst bw).writeChan.length ≤ wst.chanCap ∧
      (wst.writeChan.length = wst.chanCap →
        WSConn.doWrite wst bw = WSConn.doDestroy wst ∧
        (WSConn.doWrite wst bw).writeChan = wst.writeChan ∧
        (WSConn.doWrite wst bw).lingerZero = true ∧
        (WSConn.doWrite wst bw).transportClosed = true ∧
        (wst.closeFlag = false → (WSConn.doWrite wst bw).chanClosed = true))) := by
  constructor
  · unfold TCPConn.doWrite
    by_cases hfull : st.writeChan.length = st.chanCap
    · rw [if_pos hfull]
      obtain ⟨h1, h2, h3, h4⟩ := tcp_doDestroy_fields st
      exact ⟨by rw [h1]; exact hT, fun _ => ⟨rfl, h1, h2, h3, h4⟩⟩
    · rw [if_neg hfull]
      exact ⟨by simp; omega, fun hc => absurd hc hfull⟩
  · unfold WSConn.doWrite
    by_cases hfull : wst.writeChan.length = wst.chanCap
    · rw [if_pos hfull]
      obtain ⟨h1, h2, h3, h4⟩ := ws_doDestroy_fields wst
      exact ⟨by rw [h1]; exact hW, fun _ => ⟨rfl, h1, h2, h3, h4⟩⟩
    · rw [if_neg hfull]
      exact ⟨by simp; omega, fun hc => absurd hc hfull⟩

/-- Witness for `doWrite_bounded`: full queues of capacity 1 on both
connection types. -/
theorem doWrite_bounded_witness :
    (([some [1]] : List (Option (List Nat))).length ≤ 1 ∧
      ([some [2]] : List (Option (List Nat))).length ≤ 1) ∧
    ((TCPConn.doWrite ⟨[some [1]], 1, false, false, false, false⟩ (some [9])).writeChan.length ≤ 1 ∧
      (([some [1]] : List (Option (List Nat))).length = 1 →
        TCPConn.doWrite ⟨[some [1]], 1, false, false, false, false⟩ (some [9]) =
          TCPConn.doDestroy ⟨[some [1]], 1, false, false, false, false⟩ ∧
        (TCPConn.doWrite ⟨[some [1]], 1, false, false, false, false⟩ (some [9])).writeChan = [some [1]] ∧
        (TCPConn.doWrite ⟨[some [1]], 1, false, false, false, false⟩ (some [9])).lingerZero = true ∧
        (TCPConn.doWrite ⟨[some [1]], 1, false, false, false, false⟩ (some [9])).transportClosed = true ∧
        (false = false →
          (TCPConn.doWrite ⟨[some [1]], 1, false, false, false, false⟩ (some [9])).chanClosed = true))) := by
  refine ⟨⟨by decide, by decide⟩, ?_⟩
  exact (doWrite_bounded ⟨[some [1]], 1, false, false, false, false⟩
    ⟨[some [2]], 1, 64, false, false, false, false⟩ (some [9]) (some [8])
    (by decide) (by decide)).1

/-- The largest header-representable value is `2^(8·width) − 1` for the
accepted widths (and `0`, which only strengthens the bound, otherwise). -/
theorem headerMax_le (n : Nat) : headerMax n ≤ 2 ^ (8 * n) - 1 := by
  unfold headerMax
  split_ifs with h1 h2 h3 <;> subst_eqs <;> norm_num

/-- Closed form of `SetMsgLen`: the installed width, then each bound (new or
kept) clamped by `min` against the header maximum. -/
theorem setMsgLen_char (p : MsgParser) (l mn mx : Nat) :
    p.SetMsgLen l mn mx =
      { lenMsgLen := if l = 1 ∨ l = 2 ∨ l = 4 then l else p.lenMsgLen,
        minMsgLen := min (if mn ≠ 0 then mn else p.minMsgLen)
          (headerMax (if l = 1 ∨ l = 2 ∨ l = 4 then l else p.lenMsgLen)),
        maxMsgLen := min (if mx ≠ 0 then mx else p.maxMsgLen)
          (headerMax (if l = 1 ∨ l = 2 ∨ l = 4 then l else p.lenMsgLen)),
        littleEndian := p.littleEndian } := by
  simp only [MsgParser.SetMsgLen]
  split_ifs <;> simp_all [MsgParser.mk.injEq] <;> omega

/-- **C7 (amended)**: after every `SetMsgLen`, both bounds fit the header:
`minMsgLen ≤ 2^(8·lenMsgLen)−1` and `maxMsgLen ≤ 2^(8·lenMsgLen)−1`.
`minMsgLen ≤ maxMsgLen` is *not* guaranteed for all argument combinations;
it does hold whenever the arguments satisfy `0 < minMsgLen ≤ maxMsgLen`. -/
theorem setMsgLen_invariant (p : MsgParser) (l mn mx : Nat) :
    (p.SetMsgLen l mn mx).minMsgLen ≤ 2 ^ (8 * (p.SetMsgLen l mn mx).lenMsgLen) - 1 ∧
    (p.SetMsgLen l mn mx).maxMsgLen ≤ 2 ^ (8 * (p.SetMsgLen l mn mx).lenMsgLen) - 1 ∧
    (mn ≠ 0 → mn ≤ mx →
      (p.SetMsgLen l mn mx).minMsgLen ≤ (p.SetMsgLen l mn mx).maxMsgLen) := by
  simp only [setMsgLen_char]
  refine ⟨?_, ?_, fun h1 h2 => ?_⟩
  · have := headerMax_le (if l = 1 ∨ l = 2 ∨ l = 4 then l else p.lenMsgLen)
    omega
  · have := headerMax_le (if l = 1 ∨ l = 2 ∨ l = 4 then l else p.lenMsgLen)
    omega
  · have hmx : mx ≠ 0 := by omega
    rw [if_pos h1, if_pos hmx]
    omega

/-- Witness for `setMsgLen_invariant` at width 2, min 1, max 8. -/
theorem setMsgLen_invariant_witness :
    ((NewMsgParser.SetMsgLen 2 1 8).minMsgLen ≤
        2 ^ (8 * (NewMsgParser.SetMsgLen 2 1 8).lenMsgLen) - 1 ∧
      (NewMsgParser.SetMsgLen 2 1 8).maxMsgLen ≤
        2 ^ (8 * (NewMsgParser.SetMsgLen 2 1 8).lenMsgLen) - 1 ∧
      ((1 : Nat) ≠ 0 → (1 : Nat) ≤ 8 →
        (NewMsgParser.SetMsgLen 2 1 8).minMsgLen ≤ (NewMsgParser.SetMsgLen 2 1 8).maxMsgLen)) :=
  setMsgLen_invariant NewMsgParser 2 1 8

/-- Counterexample to **C7** as stated: `SetMsgLen(1, 100, 50)` leaves the
parser with `minMsgLen = 100 > 50 = maxMsgLen`. -/
theorem setMsgLen_min_gt_max_cex :
    ¬ ((NewMsgParser.SetMsgLen 1 100 50).minMsgLen ≤
        (NewMsgParser.SetMsgLen 1 100 50).maxMsgLen) := by
  decide

/-- Counterexample to **C3** as stated: with `LenStackBuf = 4096` and a
handler panicking with value `"boom"`, the reply slot receives the error
formatted from the panic value alone (`"boom"`), not the stack-trace
formatted error (`"boom: trace"`). -/
theorem exec_panic_reply_cex :
    (Server.exec 4096 "trace"
        ⟨.f0 (fun _ => .error "boom"), [], .syncChan, none⟩).2 =
      [⟨.vnil, some "boom", none⟩] ∧
    (some "boom" : Option String) ≠ some (panicTraceMsg 4096 "trace" "boom") := by
  constructor
  · rfl
  · decide

/-- **C3 (amended)**: a panicking target function is recovered by
`Server.exec`; the stack-trace-formatted error (`panicTraceMsg`, sized by
the configured `LenStackBuf`) is returned from `exec` (and logged by
`Exec`), while the reply slot — when present — receives an error formatted
from the panic value alone, with the call's callback mirrored in. -/
theorem exec_panic_recovered (lenStackBuf : Nat) (stack : String)
    (ci : CallInfo) (pv : String) (h : ci.f.run ci.args = .error pv) :
    Server.exec lenStackBuf stack ci =
      (some (panicTraceMsg lenStackBuf stack pv),
        match ci.chanRet with
        | .noChan => []
        | _ => [⟨.vnil, some pv, ci.cb⟩]) := by
  unfold Server.exec
  rw [h]
  unfold Server.ret
  cases ci.chanRet <;> rfl

/-- Witness for `exec_panic_recovered`. -/
theorem exec_panic_recovered_witness :
    (GoFunc.run (.f0 fun _ => .error "boom") [] = .error "boom") ∧
    Server.exec 4096 "trace" ⟨.f0 (fun _ => .error "boom"), [], .asynChan, some ⟨0, 3⟩⟩ =
      (some (panicTraceMsg 4096 "trace" "boom"), [⟨.vnil, some "boom", some ⟨0, 3⟩⟩]) :=
  ⟨rfl, exec_panic_recovered 4096 "trace"
    ⟨.f0 (fun _ => .error "boom"), [], .asynChan, some ⟨0, 3⟩⟩ "boom" rfl⟩

/-- **C9**: `Destroy` handles the registered modules in exactly the reverse
of registration order; for each module it sends the close signal, waits for
`Run` to return, then invokes `OnDestroy`, and a panic in `OnDestroy` is
recovered and logged, never interrupting the walk. -/
theorem moduleDestroy_reverse (mods : List ModuleRec) :
    ModuleDestroy mods =
      mods.reverse.flatMap fun m =>
        [.sendClose m.id, .waitRun m.id, .onDestroy m.id] ++
          match m.onDestroyRes with
          | .ok _ => []
          | .error pv => [.logRecovered m.id pv] := by
  have hsteps : ∀ m : ModuleRec,
      destroySteps m =
        [.sendClose m.id, .waitRun m.id, .onDestroy m.id] ++
          match m.onDestroyRes with
          | .ok _ => []
          | .error pv => [LifeEvent.logRecovered m.id pv] := by
    intro m
    unfold destroySteps destroyModule
    cases m.onDestroyRes <;> rfl
  have key : ∀ k, k ≤ mods.length →
      destroyFrom mods k = ((mods.take k).reverse).flatMap destroySteps := by
    intro k
    induction k with
    | zero => intro _; rfl
    | succ n ih =>
        intro hle
        have hn : n < mods.length := by omega
        have ht : mods.take (n + 1) = mods.take n ++ [mods[n]] := by
          rw [List.take_succ, List.getElem?_eq_getElem hn]
          rfl
        have hg : mods.getD n ⟨0, .ok ()⟩ = mods[n] := by
          simp [List.getD, List.getElem?_eq_getElem hn]
        unfold destroyFrom
        rw [ih (by omega), ht, hg, List.reverse_append, List.reverse_singleton,
          List.singleton_append, List.flatMap_cons]
  have hfull := key mods.length (le_refl _)
  rw [List.take_length] at hfull
  unfold ModuleDestroy
  rw [hfull]
  congr 1
  funext m
  exact hsteps m

/-- **C10**: on a connection whose `closeFlag` is set, `WriteMsg` with a
payload inside the configured bounds returns `nil` and enqueues nothing, on
both the TCP path (the parser's bounds pass, then `TCPConn.Write` silently
drops) and the WebSocket path (which returns `nil` immediately). -/
theorem writeMsg_closed_dropped (p : MsgParser) (st : TCPConnState)
    (wst : WSConnState) (args wargs : List (List Nat))
    (hT : st.closeFlag = true) (hW : wst.closeFlag = true)
    (h1 : p.minMsgLen ≤ sumLen32 args) (h2 : sumLen32 args ≤ p.maxMsgLen) :
    MsgParser.writeConn p st args = (.ok (), st) ∧
    WSConn.WriteMsg wst wargs = (.ok (), wst) := by
  constructor
  · unfold MsgParser.writeConn MsgParser.write
    rw [if_neg (by omega), if_neg (by omega)]
    simp [TCPConn.Write, hT]
  · unfold WSConn.WriteMsg
    rw [if_pos hW]

/-- Witness for `writeMsg_closed_dropped`: closed connections, payload
`[65, 66, 67]` within the default bounds. -/
theorem writeMsg_closed_dropped_witness :
    (NewMsgParser.minMsgLen ≤ sumLen32 [[65, 66, 67]] ∧
      sumLen32 [[65, 66, 67]] ≤ NewMsgParser.maxMsgLen) ∧
    MsgParser.writeConn NewMsgParser ⟨[], 8, true, false, false, false⟩ [[65, 66, 67]] =
      (.ok (), ⟨[], 8, true, false, false, false⟩) ∧
    WSConn.WriteMsg ⟨[], 8, 4096, true, false, false, false⟩ [[65, 66, 67]] =
      (.ok (), ⟨[], 8, 4096, true, false, false, false⟩) := by
  refine ⟨⟨by decide, by decide⟩, ?_, ?_⟩ <;>
  · have h := writeMsg_closed_dropped NewMsgParser ⟨[], 8, true, false, false, false⟩
      ⟨[], 8, 4096, true, false, false, false⟩ [[65, 66, 67]] [[65, 66, 67]]
      rfl rfl (by decide) (by decide)
    first
      | exact h.1
      | exact h.2

/-- Counterexample to **C8** as stated: a single buffer of `2^32` bytes has
summed length above `maxMsgLen`, yet `Write` reports *message too short*
(the `uint32` sum wraps to 0), not *message too long*. -/
theorem write_sum_overflow_cex :
    NewMsgParser.maxMsgLen < (List.replicate 4294967296 (0 : Nat)).length ∧
    NewMsgParser.write [List.replicate 4294967296 (0 : Nat)] =
      .error "message too short" := by
  have hlen : (List.replicate 4294967296 (0 : Nat)).length = 4294967296 :=
    List.length_replicate 4294967296 0
  have hs : sumLen32 [List.replicate 4294967296 (0 : Nat)] = 0 := by
    unfold sumLen32
    rw [List.foldl_cons, List.foldl_nil, hlen]
  constructor
  · rw [hlen]
    norm_num [NewMsgParser]
  · unfold MsgParser.write
    rw [hs]
    rfl

/-- **C8 (amended)**: with the summed length taken as the code computes it
(`uint32` wrap-around), `Write` reports *message too long* above
`maxMsgLen` and *message too short* below `minMsgLen`, and in both error
cases nothing is handed to the connection layer: the write queue is
untouched. -/
theorem write_bounds_nothing_sent (p : MsgParser) (st : TCPConnState)
    (args : List (List Nat)) :
    (p.maxMsgLen < sumLen32 args →
      MsgParser.writeConn p st args = (.error "message too long", st)) ∧
    (sumLen32 args ≤ p.maxMsgLen → sumLen32 args < p.minMsgLen →
      MsgParser.writeConn p st args = (.error "message too short", st)) := by
  constructor
  · intro h
    unfold MsgParser.writeConn MsgParser.write
    rw [if_pos (by omega)]
  · intro h1 h2
    unfold MsgParser.writeConn MsgParser.write
    rw [if_neg (by omega), if_pos (by omega)]

set_option maxRecDepth 4000 in
/-- Witness for `write_bounds_nothing_sent`: scenario S2 — width 1,
max 255, a 256-byte payload is rejected as *too long* with nothing sent. -/
theorem write_bounds_nothing_sent_witness :
    ((NewMsgParser.SetMsgLen 1 0 255).maxMsgLen < sumLen32 [List.replicate 256 7]) ∧
    MsgParser.writeConn (NewMsgParser.SetMsgLen 1 0 255)
        ⟨[], 8, false, false, false, false⟩ [List.replicate 256 7] =
      (.error "message too long", ⟨[], 8, false, false, false, false⟩) :=
  ⟨by decide,
    (write_bounds_nothing_sent (NewMsgParser.SetMsgLen 1 0 255)
      ⟨[], 8, false, false, false, false⟩ [List.replicate 256 7]).1 (by decide)⟩

/-- A header of an accepted width occupies exactly `lenMsgLen` bytes. -/
theorem putLen_length (p : MsgParser) (n : Nat)
    (hw : p.lenMsgLen = 1 ∨ p.lenMsgLen = 2 ∨ p.lenMsgLen = 4) :
    (p.putLen n).length = p.lenMsgLen := by
  rcases hw with h | h | h <;>
    cases hle : p.littleEndian <;>
      simp [MsgParser.putLen, h, hle]

/-- Decoding a header prepended to anything recovers the encoded length,
for lengths the header width can represent. -/
theorem getLen_putLen (p : MsgParser) (n : Nat) (t : List Nat)
    (hw : p.lenMsgLen = 1 ∨ p.lenMsgLen = 2 ∨ p.lenMsgLen = 4)
    (hn : n ≤ headerMax p.lenMsgLen) :
    p.getLen (p.putLen n ++ t) = n := by
  rcases hw with h | h | h <;>
    cases hle : p.littleEndian <;>
      · simp [MsgParser.putLen, MsgParser.getLen, h, hle, headerMax] at hn ⊢
        omega

/-- **C1**: for a parser whose configuration fits its header width
(as `SetMsgLen` guarantees) and a payload within `[minMsgLen, maxMsgLen]`,
`Write` emits exactly the `lenMsgLen`-byte length header followed by the
payload bytes, and `Read` of those wire bytes (before any further stream
contents) returns the byte-identical payload. -/
theorem msgparser_roundtrip (p : MsgParser) (payload : List Nat)
    (hw : p.lenMsgLen = 1 ∨ p.lenMsgLen = 2 ∨ p.lenMsgLen = 4)
    (hmax : p.maxMsgLen ≤ headerMax p.lenMsgLen)
    (hmin : p.minMsgLen ≤ payload.length)
    (hlen : payload.length ≤ p.maxMsgLen) :
    p.write [payload] = .ok (p.putLen payload.length ++ payload) ∧
    ∀ rest : List Nat,
      p.read (p.putLen payload.length ++ payload ++ rest) = .ok (payload, rest) := by
  have hhm : headerMax p.lenMsgLen ≤ 4294967295 := by
    unfold headerMax
    split_ifs <;> omega
  have hsum : sumLen32 [payload] = payload.length := by
    unfold sumLen32
    rw [List.foldl_cons, List.foldl_nil]
    omega
  constructor
  · unfold MsgParser.write
    rw [hsum, if_neg (by omega), if_neg (by omega)]
    simp
  · intro rest
    have hpll := putLen_length p payload.length hw
    have hget0 : p.getLen (p.putLen payload.length) = payload.length := by
      simpa using getLen_putLen p payload.length [] hw (by omega)
    unfold MsgParser.read
    rw [List.append_assoc]
    have htake : (p.putLen payload.length ++ (payload ++ rest)).take p.lenMsgLen =
        p.putLen payload.length := by
      rw [← hpll, List.take_left]
    have hdrop : (p.putLen payload.length ++ (payload ++ rest)).drop p.lenMsgLen =
        payload ++ rest := by
      rw [← hpll, List.drop_left]
    rw [if_neg (by simp [hpll])]
    rw [htake, hget0, if_neg (by omega), if_neg (by omega), hdrop]
    rw [if_neg (by simp)]
    rw [List.take_left, List.drop_left]

/-- Witness for `msgparser_roundtrip`: scenario S1 — width 2, big-endian,
min 1, max 8; writing `[0x41, 0x42, 0x43]` produces wire bytes
`00 03 41 42 43`, and reading them back yields the payload. -/
theorem msgparser_roundtrip_witness :
    ((NewMsgParser.SetMsgLen 2 1 8).lenMsgLen = 2 ∧
      (NewMsgParser.SetMsgLen 2 1 8).maxMsgLen ≤
        headerMax (NewMsgParser.SetMsgLen 2 1 8).lenMsgLen ∧
      (NewMsgParser.SetMsgLen 2 1 8).minMsgLen ≤ 3 ∧
      (3 : Nat) ≤ (NewMsgParser.SetMsgLen 2 1 8).maxMsgLen) ∧
    (NewMsgParser.SetMsgLen 2 1 8).write [[65, 66, 67]] = .ok [0, 3, 65, 66, 67] ∧
    (NewMsgParser.SetMsgLen 2 1 8).read [0, 3, 65, 66, 67] = .ok ([65, 66, 67], []) := by
  refine ⟨⟨by decide, by decide, by decide, by decide⟩, ?_, ?_⟩
  · have h := (msgparser_roundtrip (NewMsgParser.SetMsgLen 2 1 8) [65, 66, 67]
      (by decide) (by decide) (by decide) (by decide)).1
    rw [h]
    rfl
  · have h := (msgparser_roundtrip (NewMsgParser.SetMsgLen 2 1 8) [65, 66, 67]
      (by decide) (by decide) (by decide) (by decide)).2 []
    have hwire : (NewMsgParser.SetMsgLen 2 1 8).putLen ([65, 66, 67] : List Nat).length ++
        [65, 66, 67] ++ [] = [0, 3, 65, 66, 67] := by rfl
    rw [← hwire]
    exact h

/-- Counterexample to **C2** as stated: the day-of-month field `1-31` was
*not* written as `*` and day-of-week `0` was not either, so per the claim
matching should be disjunctive — and 2020-01-06 (a Monday, day 6) has its
day-of-month bit set.  But `1-31` parses to the sentinel mask `0xfffffffe`,
so the code consults day-of-week only and reports no match. -/
theorem matchDay_sentinel_cex :
    ("1-31" ≠ "*") ∧ ("0" ≠ "*") ∧
    parseCronField "1-31" 1 31 = .ok 4294967294 ∧
    parseCronField "0" 0 6 = .ok 1 ∧
    specMatchDay false false 4294967294 1 ⟨2020, 1, 6, 0, 0, 0⟩ = true ∧
    CronExpr.matchDay ⟨0, 0, 0, 4294967294, 0, 1⟩ ⟨2020, 1, 6, 0, 0, 0⟩ = false := by
  exact ⟨by decide, by decide, by decide, by decide, by decide, by decide⟩

/-- **C2 (amended)**: day matching is decided by the sentinel masks, not by
how the fields were written: when the day-of-month mask is `0xfffffffe`
only day-of-week is consulted; otherwise when the day-of-week mask is
`0x7f` only day-of-month is consulted; otherwise the two are disjunctive.
A field written exactly `*` does produce its sentinel (so the
exactly-one-`*` behaviour of the claim holds), but any other field text
covering the full domain triggers the same deference. -/
theorem matchDay_sentinel_rule (domS dowS : String) (dm dw : Nat)
    (e : CronExpr) (t : GoTime)
    (hdm : parseCronField domS 1 31 = .ok dm)
    (hdw : parseCronField dowS 0 6 = .ok dw)
    (hedom : e.dom = dm) (hedow : e.dow = dw) :
    (domS = "*" → dm = 4294967294 ∧
      e.matchDay t = ((1 <<< t.weekday) &&& e.dow != 0)) ∧
    (dowS = "*" → dw = 127 ∧ (dm ≠ 4294967294 →
      e.matchDay t = ((1 <<< t.day) &&& e.dom != 0))) ∧
    (dm ≠ 4294967294 → dw ≠ 127 →
      e.matchDay t =
        (((1 <<< t.weekday) &&& e.dow != 0) || ((1 <<< t.day) &&& e.dom != 0))) := by
  refine ⟨?_, ?_, ?_⟩
  · intro hstar
    subst hstar
    have hv : dm = 4294967294 := by
      have hp : parseCronField "*" 1 31 = .ok 4294967294 := by decide
      rw [hp] at hdm
      exact (Except.ok.inj hdm).symm
    refine ⟨hv, ?_⟩
    unfold CronExpr.matchDay
    rw [if_pos (hedom.trans hv)]
  · intro hstar
    subst hstar
    have hv : dw = 127 := by
      have hp : parseCronField "*" 0 6 = .ok 127 := by decide
      rw [hp] at hdw
      exact (Except.ok.inj hdw).symm
    refine ⟨hv, fun hne => ?_⟩
    unfold CronExpr.matchDay
    rw [if_neg (by rw [hedom]; exact hne), if_pos (hedow.trans hv)]
  · intro h1 h2
    unfold CronExpr.matchDay
    rw [if_neg (by rw [hedom]; exact h1), if_neg (by rw [hedow]; exact h2)]

/-- Witness for `matchDay_sentinel_rule`: day-of-month `*`, day-of-week `3`
on 2020-01-06 (a Monday). -/
theorem matchDay_sentinel_rule_witness :
    (parseCronField "*" 1 31 = .ok 4294967294 ∧
      parseCronField "3" 0 6 = .ok 8) ∧
    (("*" : String) = "*" → (4294967294 : Nat) = 4294967294 ∧
      CronExpr.matchDay ⟨0, 0, 0, 4294967294, 0, 8⟩ ⟨2020, 1, 6, 0, 0, 0⟩ =
        ((1 <<< GoTime.weekday ⟨2020, 1, 6, 0, 0, 0⟩) &&& 8 != 0)) :=
  ⟨⟨by decide, by decide⟩,
    (matchDay_sentinel_rule "*" "3" 4294967294 8 ⟨0, 0, 0, 4294967294, 0, 8⟩
      ⟨2020, 1, 6, 0, 0, 0⟩ (by decide) (by decide) rfl rfl).1⟩

/-! ### Calendar lemmas for `CronExpr.Next` -/

theorem daysInMonth_ge (y : Int) (m : Nat) : 28 ≤ daysInMonth y m := by
  unfold daysInMonth
  split_ifs <;> omega

theorem daysInMonth_le (y : Int) (m : Nat) : daysInMonth y m ≤ 31 := by
  unfold daysInMonth
  split_ifs <;> omega

theorem rollDayAux_noroll (fuel : Nat) (y : Int) (m d : Nat)
    (h : d ≤ daysInMonth y m) : rollDayAux fuel y m d = (y, m, d) := by
  cases fuel with
  | zero => rfl
  | succ n =>
      unfold rollDayAux
      rw [if_neg (by omega)]

/-- With at most 32 days to place (all the scheduler ever produces), the
day-overflow normalisation does nothing or rolls exactly one month. -/
theorem rollDay_spec (y : Int) (m d : Nat) (hm1 : 1 ≤ m) (hm2 : m ≤ 12)
    (hd1 : 1 ≤ d) (hd2 : d ≤ 32) :
    (d ≤ daysInMonth y m ∧ rollDay y m d = (y, m, d)) ∨
    (daysInMonth y m < d ∧ m ≤ 11 ∧
      rollDay y m d = (y, m + 1, d - daysInMonth y m) ∧
      d - daysInMonth y m ≤ daysInMonth y (m + 1)) ∨
    (daysInMonth y m < d ∧ m = 12 ∧ rollDay y m d = (y + 1, 1, d - 31)) := by
  unfold rollDay
  obtain ⟨k, rfl⟩ : ∃ k, d = k + 1 := ⟨d - 1, by omega⟩
  unfold rollDayAux
  by_cases hroll : daysInMonth y m < k + 1
  · rw [if_pos hroll]
    by_cases h12 : m = 12
    · right; right
      subst h12
      have h31 : daysInMonth y 12 = 31 := rfl
      rw [if_pos rfl, rollDayAux_noroll _ _ _ _ (by
        have := daysInMonth_ge (y + 1) 1
        omega)]
      rw [h31] at hroll ⊢
      exact ⟨hroll, rfl, rfl⟩
    · right; left
      have hge := daysInMonth_ge y m
      have hge1 := daysInMonth_ge y (m + 1)
      rw [if_neg h12, rollDayAux_noroll _ _ _ _ (by omega)]
      exact ⟨hroll, by omega, rfl, by omega⟩
  · left
    rw [if_neg hroll]
    exact ⟨by omega, rfl⟩

/-- The field resets used by `Next` preserve validity. -/
theorem resets_valid (t : GoTime) (hv : t.Valid) :
    (firstOfMonth t).Valid ∧ (midnight t).Valid ∧
    (truncHour t).Valid ∧ (truncMinute t).Valid := by
  obtain ⟨h1, h2, h3, h4, h5, h6, h7⟩ := hv
  have hp := daysInMonth_pos t.year t.month
  refine ⟨?_, ?_, ?_, ?_⟩ <;>
    · simp only [GoTime.Valid, firstOfMonth, midnight, truncHour, truncMinute]
      omega

/-- Chronological comparison through the mixed-radix linearisation: a
lexicographic increase of in-range civil fields increases `lin`. -/
theorem lin_lt_of_fields (a b : GoTime) (ha : a.Valid) (hb : b.Valid)
    (h : a.year < b.year ∨ (b.year = a.year ∧
      (a.month < b.month ∨ (b.month = a.month ∧
        (a.day < b.day ∨ (b.day = a.day ∧
          (a.hour < b.hour ∨ (b.hour = a.hour ∧
            (a.min < b.min ∨ (b.min = a.min ∧ a.sec < b.sec)))))))))) :
    a.lin < b.lin := by
  obtain ⟨a1, a2, a3, a4, a5, a6, a7⟩ := ha
  obtain ⟨b1, b2, b3, b4, b5, b6, b7⟩ := hb
  have hda := daysInMonth_le a.year a.month
  have hdb := daysInMonth_le b.year b.month
  unfold GoTime.lin
  rcases h with h | ⟨hy, h⟩
  · omega
  · rcases h with h | ⟨hm, h⟩
    · omega
    · rcases h with h | ⟨hd, h⟩
      · omega
      · rcases h with h | ⟨hh, h⟩
        · omega
        · rcases h with h | ⟨hmi, h⟩ <;> omega

/-- `AddDate(0, 1, 0)` on a valid instant: valid result, clock fields kept,
a lexicographic `(year, month)` increase, and the year only changes when
the result lands in January (the `goto retry` wrap of the month loop). -/
theorem addMonth_spec (t : GoTime) (hv : t.Valid) :
    (addMonth t).Valid ∧
    (addMonth t).hour = t.hour ∧ (addMonth t).min = t.min ∧
    (addMonth t).sec = t.sec ∧
    (t.year < (addMonth t).year ∨
      ((addMonth t).year = t.year ∧ t.month < (addMonth t).month)) ∧
    ((addMonth t).month ≠ 1 → (addMonth t).year = t.year) := by
  obtain ⟨h1, h2, h3, h4, h5, h6, h7⟩ := hv
  have hd31 := daysInMonth_le t.year t.month
  simp only [addMonth]
  by_cases h12 : t.month = 12
  · rw [if_pos h12]
    have hja : daysInMonth (t.year + 1) 1 = 31 := rfl
    have hr : rollDay (t.year + 1) 1 t.day = (t.year + 1, 1, t.day) := by
      unfold rollDay
      exact rollDayAux_noroll t.day (t.year + 1) 1 t.day (by omega)
    rw [hr]
    simp [GoTime.Valid]; omega
  · rw [if_neg h12]
    rcases rollDay_spec t.year (t.month + 1) t.day (by omega) (by omega)
        (by omega) (by omega) with ⟨hle, heq⟩ | ⟨hlt, hm11, heq, hle⟩ | ⟨hlt, hm12, heq⟩
    · rw [heq]
      simp [GoTime.Valid]; omega
    · rw [heq]
      have hge := daysInMonth_ge t.year (t.month + 1)
      simp [GoTime.Valid]; omega
    · -- vacuous: a roll out of December needs day > 31, but day ≤ 30 in
      -- November, the only month whose successor is December
      have hm11v : t.month = 11 := by omega
      have hd30 : daysInMonth t.year t.month = 30 := by rw [hm11v]; rfl
      have h12v : daysInMonth t.year (t.month + 1) = 31 := by rw [hm12]; rfl
      exact absurd hlt (by omega)

/-- `AddDate(0, 0, 1)` on a valid instant: valid result, clock fields kept,
a lexicographic `(year, month, day)` increase, and unless the result lands
on day 1 (the `goto retry` wrap of the day loop) only the day moves, by
exactly one. -/
theorem addDay_spec (t : GoTime) (hv : t.Valid) :
    (addDay t).Valid ∧
    (addDay t).hour = t.hour ∧ (addDay t).min = t.min ∧
    (addDay t).sec = t.sec ∧
    (t.year < (addDay t).year ∨ ((addDay t).year = t.year ∧
      (t.month < (addDay t).month ∨
        ((addDay t).month = t.month ∧ t.day < (addDay t).day)))) ∧
    ((addDay t).day ≠ 1 → (addDay t).year = t.year ∧
      (addDay t).month = t.month ∧ (addDay t).day = t.day + 1) := by
  obtain ⟨h1, h2, h3, h4, h5, h6, h7⟩ := hv
  have hd31 := daysInMonth_le t.year t.month
  simp only [addDay]
  rcases rollDay_spec t.year t.month (t.day + 1) (by omega) (by omega)
      (by omega) (by omega) with ⟨hle, heq⟩ | ⟨hlt, hm11, heq, hle⟩ | ⟨hlt, hm12, heq⟩
  · rw [heq]
    simp [GoTime.Valid]; omega
  · rw [heq]
    have hge := daysInMonth_ge t.year (t.month + 1)
    simp [GoTime.Valid]; omega
  · rw [heq]
    have h31 : daysInMonth t.year t.month = 31 := by rw [hm12]; rfl
    have hja : daysInMonth (t.year + 1) 1 = 31 := rfl
    simp [GoTime.Valid]; omega

/-- `Add(time.Hour)` on a valid instant: valid result, minute/second kept,
a lexicographic increase within `(year, month, day, hour)`, and unless the
result's hour is 0 (the `goto retry` wrap of the hour loop) only the hour
moves. -/
theorem addHour_spec (t : GoTime) (hv : t.Valid) :
    (addHour t).Valid ∧ (addHour t).min = t.min ∧ (addHour t).sec = t.sec ∧
    (t.year < (addHour t).year ∨ ((addHour t).year = t.year ∧
      (t.month < (addHour t).month ∨ ((addHour t).month = t.month ∧
        (t.day < (addHour t).day ∨ ((addHour t).day = t.day ∧
          t.hour < (addHour t).hour)))))) ∧
    ((addHour t).hour ≠ 0 → (addHour t).year = t.year ∧
      (addHour t).month = t.month ∧ (addHour t).day = t.day) := by
  have hc := hv
  obtain ⟨h1, h2, h3, h4, h5, h6, h7⟩ := hc
  unfold addHour
  by_cases hh : t.hour < 23
  · rw [if_pos hh]
    refine ⟨?_, rfl, rfl, ?_, fun _ => ⟨rfl, rfl, rfl⟩⟩
    · show 1 ≤ t.month ∧ t.month ≤ 12 ∧ 1 ≤ t.day ∧
        t.day ≤ daysInMonth t.year t.month ∧ t.hour + 1 ≤ 23 ∧
        t.min ≤ 59 ∧ t.sec ≤ 59
      omega
    · exact Or.inr ⟨rfl, Or.inr ⟨rfl, Or.inr ⟨rfl, Nat.lt_succ_self _⟩⟩⟩
  · rw [if_neg hh]
    obtain ⟨⟨a1, a2, a3, a4, a5, a6, a7⟩, hhr, hmr, hsr, hlex, _⟩ := addDay_spec t hv
    refine ⟨?_, hmr, hsr, ?_, fun hne => absurd rfl hne⟩
    · show 1 ≤ (addDay t).month ∧ (addDay t).month ≤ 12 ∧ 1 ≤ (addDay t).day ∧
        (addDay t).day ≤ daysInMonth (addDay t).year (addDay t).month ∧
        (0 : Nat) ≤ 23 ∧ (addDay t).min ≤ 59 ∧ (addDay t).sec ≤ 59
      omega
    · rcases hlex with hy | ⟨hy, hm | ⟨hm, hd⟩⟩
      · exact Or.inl hy
      · exact Or.inr ⟨hy, Or.inl hm⟩
      · exact Or.inr ⟨hy, Or.inr ⟨hm, Or.inl hd⟩⟩

/-- `Add(time.Minute)` on a valid instant: valid result, second kept, a
lexicographic increase within `(year, month, day, hour, minute)`, and
unless the result's minute is 0 only the minute moves. -/
theorem addMinute_spec (t : GoTime) (hv : t.Valid) :
    (addMinute t).Valid ∧ (addMinute t).sec = t.sec ∧
    (t.year < (addMinute t).year ∨ ((addMinute t).year = t.year ∧
      (t.month < (addMinute t).month ∨ ((addMinute t).month = t.month ∧
        (t.day < (addMinute t).day ∨ ((addMinute t).day = t.day ∧
          (t.hour < (addMinute t).hour ∨ ((addMinute t).hour = t.hour ∧
            t.min < (addMinute t).min)))))))) ∧
    ((addMinute t).min ≠ 0 → (addMinute t).year = t.year ∧
      (addMinute t).month = t.month ∧ (addMinute t).day = t.day ∧
      (addMinute t).hour = t.hour) := by
  have hc := hv
  obtain ⟨h1, h2, h3, h4, h5, h6, h7⟩ := hc
  unfold addMinute
  by_cases hm : t.min < 59
  · rw [if_pos hm]
    refine ⟨?_, rfl, ?_, fun _ => ⟨rfl, rfl, rfl, rfl⟩⟩
    · show 1 ≤ t.month ∧ t.month ≤ 12 ∧ 1 ≤ t.day ∧
        t.day ≤ daysInMonth t.year t.month ∧ t.hour ≤ 23 ∧
        t.min + 1 ≤ 59 ∧ t.sec ≤ 59
      omega
    · exact Or.inr ⟨rfl, Or.inr ⟨rfl, Or.inr ⟨rfl, Or.inr ⟨rfl, Nat.lt_succ_self _⟩⟩⟩⟩
  · rw [if_neg hm]
    have hzv : ({ t with min := 0 } : GoTime).Valid := by
      show 1 ≤ t.month ∧ t.month ≤ 12 ∧ 1 ≤ t.day ∧
        t.day ≤ daysInMonth t.year t.month ∧ t.hour ≤ 23 ∧
        (0 : Nat) ≤ 59 ∧ t.sec ≤ 59
      omega
    obtain ⟨hv2, hmr, hsr, hlex, hnw⟩ := addHour_spec { t with min := 0 } hzv
    have hm0 : (addHour { t with min := 0 }).min = 0 := hmr
    refine ⟨hv2, hsr, ?_, fun hne => absurd hm0 hne⟩
    rcases hlex with hy | ⟨hy, hmo | ⟨hmo, hd | ⟨hd, hh⟩⟩⟩
    · exact Or.inl hy
    · exact Or.inr ⟨hy, Or.inl hmo⟩
    · exact Or.inr ⟨hy, Or.inr ⟨hmo, Or.inl hd⟩⟩
    · exact Or.inr ⟨hy, Or.inr ⟨hmo, Or.inr ⟨hd, Or.inl hh⟩⟩⟩

/-- `Add(time.Second)` on a valid instant: valid result, a lexicographic
increase of the civil fields, and unless the result's second is 0 only the
second moves, by exactly one. -/
theorem addSecond_spec (t : GoTime) (hv : t.Valid) :
    (addSecond t).Valid ∧
    (t.year < (addSecond t).year ∨ ((addSecond t).year = t.year ∧
      (t.month < (addSecond t).month ∨ ((addSecond t).month = t.month ∧
        (t.day < (addSecond t).day ∨ ((addSecond t).day = t.day ∧
          (t.hour < (addSecond t).hour ∨ ((addSecond t).hour = t.hour ∧
            (t.min < (addSecond t).min ∨ ((addSecond t).min = t.min ∧
              t.sec < (addSecond t).sec)))))))))) ∧
    ((addSecond t).sec ≠ 0 → (addSecond t).year = t.year ∧
      (addSecond t).month = t.month ∧ (addSecond t).day = t.day ∧
      (addSecond t).hour = t.hour ∧ (addSecond t).min = t.min) := by
  have hc := hv
  obtain ⟨h1, h2, h3, h4, h5, h6, h7⟩ := hc
  unfold addSecond
  by_cases hs : t.sec < 59
  · rw [if_pos hs]
    refine ⟨?_, ?_, fun _ => ⟨rfl, rfl, rfl, rfl, rfl⟩⟩
    · show 1 ≤ t.month ∧ t.month ≤ 12 ∧ 1 ≤ t.day ∧
        t.day ≤ daysInMonth t.year t.month ∧ t.hour ≤ 23 ∧
        t.min ≤ 59 ∧ t.sec + 1 ≤ 59
      omega
    · exact Or.inr ⟨rfl, Or.inr ⟨rfl, Or.inr ⟨rfl, Or.inr ⟨rfl,
        Or.inr ⟨rfl, Nat.lt_succ_self _⟩⟩⟩⟩⟩
  · rw [if_neg hs]
    have hzv : ({ t with sec := 0 } : GoTime).Valid := by
      show 1 ≤ t.month ∧ t.month ≤ 12 ∧ 1 ≤ t.day ∧
        t.day ≤ daysInMonth t.year t.month ∧ t.hour ≤ 23 ∧
        t.min ≤ 59 ∧ (0 : Nat) ≤ 59
      omega
    obtain ⟨hv2, hsr, hlex, hnw⟩ := addMinute_spec { t with sec := 0 } hzv
    have hs0 : (addMinute { t with sec := 0 }).sec = 0 := hsr
    refine ⟨hv2, ?_, fun hne => absurd hs0 hne⟩
    rcases hlex with hy | ⟨hy, hmo | ⟨hmo, hd | ⟨hd, hh | ⟨hh, hmi⟩⟩⟩⟩
    · exact Or.inl hy
    · exact Or.inr ⟨hy, Or.inl hmo⟩
    · exact Or.inr ⟨hy, Or.inr ⟨hmo, Or.inl hd⟩⟩
    · exact Or.inr ⟨hy, Or.inr ⟨hmo, Or.inr ⟨hd, Or.inl hh⟩⟩⟩
    · exact Or.inr ⟨hy, Or.inr ⟨hmo, Or.inr ⟨hd, Or.inr ⟨hh, Or.inl hmi⟩⟩⟩⟩

/-- The month loop of `Next` only moves time forward (and keeps the year
when it falls through without wrapping into January). -/
theorem monthPhase_spec (e : CronExpr) :
    ∀ fuel flag t, t.Valid →
      (∀ f' t', monthPhase e fuel flag t = .retry f' t' →
        t'.Valid ∧ t.lin ≤ t'.lin) ∧
      (∀ f' t', monthPhase e fuel flag t = .cont f' t' →
        t'.Valid ∧ t.lin ≤ t'.lin ∧ t'.year = t.year) := by
  intro fuel
  induction fuel with
  | zero =>
      intro flag t hv
      constructor
      · intro f' t' h
        exact absurd h (by simp [monthPhase])
      · intro f' t' h
        unfold monthPhase at h
        injection h with h1 h2
        subst h2
        exact ⟨hv, le_refl _, rfl⟩
  | succ n ih =>
      intro flag t hv
      by_cases hmm : (1 <<< t.month) &&& e.month ≠ 0
      · constructor
        · intro f' t' h
          unfold monthPhase at h
          rw [if_pos hmm] at h
          exact absurd h (by simp)
        · intro f' t' h
          unfold monthPhase at h
          rw [if_pos hmm] at h
          injection h with h1 h2
          subst h2
          exact ⟨hv, le_refl _, rfl⟩
      · have huv : (if flag then t else firstOfMonth t).Valid := by
          cases flag
          · simpa using (resets_valid t hv).1
          · simpa using hv
        have huy : (if flag then t else firstOfMonth t).year = t.year := by
          cases flag <;> rfl
        have hum : (if flag then t else firstOfMonth t).month = t.month := by
          cases flag <;> rfl
        obtain ⟨hav, hah, ham, has, halex, hayr⟩ := addMonth_spec _ huv
        rw [huy, hum] at halex
        rw [huy] at hayr
        have hlin : t.lin < (addMonth (if flag then t else firstOfMonth t)).lin := by
          apply lin_lt_of_fields t _ hv hav
          rcases halex with hy | ⟨hy, hm2⟩
          · exact Or.inl hy
          · exact Or.inr ⟨hy, Or.inl hm2⟩
        by_cases hjan : (addMonth (if flag then t else firstOfMonth t)).month = 1
        · constructor
          · intro f' t' h
            unfold monthPhase at h
            rw [if_neg hmm, if_pos hjan] at h
            injection h with h1 h2
            subst h2
            exact ⟨hav, le_of_lt hlin⟩
          · intro f' t' h
            unfold monthPhase at h
            rw [if_neg hmm, if_pos hjan] at h
            exact absurd h (by simp)
        · have ihx := ih true (addMonth (if flag then t else firstOfMonth t)) hav
          constructor
          · intro f' t' h
            unfold monthPhase at h
            rw [if_neg hmm, if_neg hjan] at h
            obtain ⟨hval, hle⟩ := ihx.1 f' t' h
            exact ⟨hval, le_trans (le_of_lt hlin) hle⟩
          · intro f' t' h
            unfold monthPhase at h
            rw [if_neg hmm, if_neg hjan] at h
            obtain ⟨hval, hle, hyr⟩ := ihx.2 f' t' h
            exact ⟨hval, le_trans (le_of_lt hlin) hle, hyr.trans (hayr hjan)⟩

/-- The day loop of `Next` only moves time forward (and keeps the year when
it falls through without wrapping onto day 1). -/
theorem dayPhase_spec (e : CronExpr) :
    ∀ fuel flag t, t.Valid →
      (∀ f' t', dayPhase e fuel flag t = .retry f' t' →
        t'.Valid ∧ t.lin ≤ t'.lin) ∧
      (∀ f' t', dayPhase e fuel flag t = .cont f' t' →
        t'.Valid ∧ t.lin ≤ t'.lin ∧ t'.year = t.year) := by
  intro fuel
  induction fuel with
  | zero =>
      intro flag t hv
      constructor
      · intro f' t' h
        exact absurd h (by simp [dayPhase])
      · intro f' t' h
        unfold dayPhase at h
        injection h with h1 h2
        subst h2
        exact ⟨hv, le_refl _, rfl⟩
  | succ n ih =>
      intro flag t hv
      by_cases hmd : e.matchDay t = true
      · constructor
        · intro f' t' h
          unfold dayPhase at h
          rw [if_pos hmd] at h
          exact absurd h (by simp)
        · intro f' t' h
          unfold dayPhase at h
          rw [if_pos hmd] at h
          injection h with h1 h2
          subst h2
          exact ⟨hv, le_refl _, rfl⟩
      · have huv : (if flag then t else midnight t).Valid := by
          cases flag
          · simpa using (resets_valid t hv).2.1
          · simpa using hv
        have huy : (if flag then t else midnight t).year = t.year := by
          cases flag <;> rfl
        have hum : (if flag then t else midnight t).month = t.month := by
          cases flag <;> rfl
        have hud : (if flag then t else midnight t).day = t.day := by
          cases flag <;> rfl
        obtain ⟨hav, hah, ham, has, halex, hanw⟩ := addDay_spec _ huv
        rw [huy, hum, hud] at halex
        rw [huy] at hanw
        have hlin : t.lin < (addDay (if flag then t else midnight t)).lin := by
          apply lin_lt_of_fields t _ hv hav
          rcases halex with hy | ⟨hy, hm2 | ⟨hm2, hd2⟩⟩
          · exact Or.inl hy
          · exact Or.inr ⟨hy, Or.inl hm2⟩
          · exact Or.inr ⟨hy, Or.inr ⟨hm2, Or.inl hd2⟩⟩
        by_cases hwrap : (addDay (if flag then t else midnight t)).day = 1
        · constructor
          · intro f' t' h
            unfold dayPhase at h
            rw [if_neg hmd, if_pos hwrap] at h
            injection h with h1 h2
            subst h2
            exact ⟨hav, le_of_lt hlin⟩
          · intro f' t' h
            unfold dayPhase at h
            rw [if_neg hmd, if_pos hwrap] at h
            exact absurd h (by simp)
        · have ihx := ih true (addDay (if flag then t else midnight t)) hav
          constructor
          · intro f' t' h
            unfold dayPhase at h
            rw [if_neg hmd, if_neg hwrap] at h
            obtain ⟨hval, hle⟩ := ihx.1 f' t' h
            exact ⟨hval, le_trans (le_of_lt hlin) hle⟩
          · intro f' t' h
            unfold dayPhase at h
            rw [if_neg hmd, if_neg hwrap] at h
            obtain ⟨hval, hle, hyr⟩ := ihx.2 f' t' h
            exact ⟨hval, le_trans (le_of_lt hlin) hle, hyr.trans (hanw hwrap).1⟩

/-- The hour loop of `Next` only moves time forward (and keeps the year
when it falls through without wrapping past midnight). -/
theorem hourPhase_spec (e : CronExpr) :
    ∀ fuel flag t, t.Valid →
      (∀ f' t', hourPhase e fuel flag t = .retry f' t' →
        t'.Valid ∧ t.lin ≤ t'.lin) ∧
      (∀ f' t', hourPhase e fuel flag t = .cont f' t' →
        t'.Valid ∧ t.lin ≤ t'.lin ∧ t'.year = t.year) := by
  intro fuel
  induction fuel with
  | zero =>
      intro flag t hv
      constructor
      · intro f' t' h
        exact absurd h (by simp [hourPhase])
      · intro f' t' h
        unfold hourPhase at h
        injection h with h1 h2
        subst h2
        exact ⟨hv, le_refl _, rfl⟩
  | succ n ih =>
      intro flag t hv
      by_cases hmh : (1 <<< t.hour) &&& e.hour ≠ 0
      · constructor
        · intro f' t' h
          unfold hourPhase at h
          rw [if_pos hmh] at h
          exact absurd h (by simp)
        · intro f' t' h
          unfold hourPhase at h
          rw [if_pos hmh] at h
          injection h with h1 h2
          subst h2
          exact ⟨hv, le_refl _, rfl⟩
      · have huv : (if flag then t else truncHour t).Valid := by
          cases flag
          · simpa using (resets_valid t hv).2.2.1
          · simpa using hv
        have huy : (if flag then t else truncHour t).year = t.year := by
          cases flag <;> rfl
        have hum : (if flag then t else truncHour t).month = t.month := by
          cases flag <;> rfl
        have hud : (if flag then t else truncHour t).day = t.day := by
          cases flag <;> rfl
        have huh : (if flag then t else truncHour t).hour = t.hour := by
          cases flag <;> rfl
        obtain ⟨hav, ham, has, halex, hanw⟩ := addHour_spec _ huv
        rw [huy, hum, hud, huh] at halex
        rw [huy] at hanw
        have hlin : t.lin < (addHour (if flag then t else truncHour t)).lin := by
          apply lin_lt_of_fields t _ hv hav
          rcases halex with hy | ⟨hy, hm2 | ⟨hm2, hd2 | ⟨hd2, hh2⟩⟩⟩
          · exact Or.inl hy
          · exact Or.inr ⟨hy, Or.inl hm2⟩
          · exact Or.inr ⟨hy, Or.inr ⟨hm2, Or.inl hd2⟩⟩
          · exact Or.inr ⟨hy, Or.inr ⟨hm2, Or.inr ⟨hd2, Or.inl hh2⟩⟩⟩
        by_cases hwrap : (addHour (if flag then t else truncHour t)).hour = 0
        · constructor
          · intro f' t' h
            unfold hourPhase at h
            rw [if_neg hmh, if_pos hwrap] at h
            injection h with h1 h2
            subst h2
            exact ⟨hav, le_of_lt hlin⟩
          · intro f' t' h
            unfold hourPhase at h
            rw [if_neg hmh, if_pos hwrap] at h
            exact absurd h (by simp)
        · have ihx := ih true (addHour (if flag then t else truncHour t)) hav
          constructor
          · intro f' t' h
            unfold hourPhase at h
            rw [if_neg hmh, if_neg hwrap] at h
            obtain ⟨hval, hle⟩ := ihx.1 f' t' h
            exact ⟨hval, le_trans (le_of_lt hlin) hle⟩
          · intro f' t' h
            unfold hourPhase at h
            rw [if_neg hmh, if_neg hwrap] at h
            obtain ⟨hval, hle, hyr⟩ := ihx.2 f' t' h
            exact ⟨hval, le_trans (le_of_lt hlin) hle, hyr.trans (hanw hwrap).1⟩

/-- The minute loop of `Next` only moves time forward (and keeps the year
when it falls through without wrapping past the hour). -/
theorem minutePhase_spec (e : CronExpr) :
    ∀ fuel flag t, t.Valid →
      (∀ f' t', minutePhase e fuel flag t = .retry f' t' →
        t'.Valid ∧ t.lin ≤ t'.lin) ∧
      (∀ f' t', minutePhase e fuel flag t = .cont f' t' →
        t'.Valid ∧ t.lin ≤ t'.lin ∧ t'.year = t.year) := by
  intro fuel
  induction fuel with
  | zero =>
      intro flag t hv
      constructor
      · intro f' t' h
        exact absurd h (by simp [minutePhase])
      · intro f' t' h
        unfold minutePhase at h
        injection h with h1 h2
        subst h2
        exact ⟨hv, le_refl _, rfl⟩
  | succ n ih =>
      intro flag t hv
      by_cases hmmi : (1 <<< t.min) &&& e.min ≠ 0
      · constructor
        · intro f' t' h
          unfold minutePhase at h
          rw [if_pos hmmi] at h
          exact absurd h (by simp)
        · intro f' t' h
          unfold minutePhase at h
          rw [if_pos hmmi] at h
          injection h with h1 h2
          subst h2
          exact ⟨hv, le_refl _, rfl⟩
      · have huv : (if flag then t else truncMinute t).Valid := by
          cases flag
          · simpa using (resets_valid t hv).2.2.2
          · simpa using hv
        have huy : (if flag then t else truncMinute t).year = t.year := by
          cases flag <;> rfl
        have hum : (if flag then t else truncMinute t).month = t.month := by
          cases flag <;> rfl
        have hud : (if flag then t else truncMinute t).day = t.day := by
          cases flag <;> rfl
        have huh : (if flag then t else truncMinute t).hour = t.hour := by
          cases flag <;> rfl
        have humi : (if flag then t else truncMinute t).min = t.min := by
          cases flag <;> rfl
        obtain ⟨hav, has, halex, hanw⟩ := addMinute_spec _ huv
        rw [huy, hum, hud, huh, humi] at halex
        rw [huy] at hanw
        have hlin : t.lin < (addMinute (if flag then t else truncMinute t)).lin := by
          apply lin_lt_of_fields t _ hv hav
          rcases halex with hy | ⟨hy, hm2 | ⟨hm2, hd2 | ⟨hd2, hh2 | ⟨hh2, hmi2⟩⟩⟩⟩
          · exact Or.inl hy
          · exact Or.inr ⟨hy, Or.inl hm2⟩
          · exact Or.inr ⟨hy, Or.inr ⟨hm2, Or.inl hd2⟩⟩
          · exact Or.inr ⟨hy, Or.inr ⟨hm2, Or.inr ⟨hd2, Or.inl hh2⟩⟩⟩
          · exact Or.inr ⟨hy, Or.inr ⟨hm2, Or.inr ⟨hd2, Or.inr ⟨hh2, Or.inl hmi2⟩⟩⟩⟩
        by_cases hwrap : (addMinute (if flag then t else truncMinute t)).min = 0
        · constructor
          · intro f' t' h
            unfold minutePhase at h
            rw [if_neg hmmi, if_pos hwrap] at h
            injection h with h1 h2
            subst h2
            exact ⟨hav, le_of_lt hlin⟩
          · intro f' t' h
            unfold minutePhase at h
            rw [if_neg hmmi, if_pos hwrap] at h
            exact absurd h (by simp)
        · have ihx := ih true (addMinute (if flag then t else truncMinute t)) hav
          constructor
          · intro f' t' h
            unfold minutePhase at h
            rw [if_neg hmmi, if_neg hwrap] at h
            obtain ⟨hval, hle⟩ := ihx.1 f' t' h
            exact ⟨hval, le_trans (le_of_lt hlin) hle⟩
          · intro f' t' h
            unfold minutePhase at h
            rw [if_neg hmmi, if_neg hwrap] at h
            obtain ⟨hval, hle, hyr⟩ := ihx.2 f' t' h
            exact ⟨hval, le_trans (le_of_lt hlin) hle, hyr.trans (hanw hwrap).1⟩

/-- The second loop of `Next` only moves time forward (and keeps the year
when it falls through without wrapping past the minute). -/
theorem secPhase_spec (e : CronExpr) :
    ∀ fuel flag t, t.Valid →
      (∀ f' t', secPhase e fuel flag t = .retry f' t' →
        t'.Valid ∧ t.lin ≤ t'.lin) ∧
      (∀ f' t', secPhase e fuel flag t = .cont f' t' →
        t'.Valid ∧ t.lin ≤ t'.lin ∧ t'.year = t.year) := by
  intro fuel
  induction fuel with
  | zero =>
      intro flag t hv
      constructor
      · intro f' t' h
        exact absurd h (by simp [secPhase])
      · intro f' t' h
        unfold secPhase at h
        injection h with h1 h2
        subst h2
        exact ⟨hv, le_refl _, rfl⟩
  | succ n ih =>
      intro flag t hv
      by_cases hms : (1 <<< t.sec) &&& e.sec ≠ 0
      · constructor
        · intro f' t' h
          unfold secPhase at h
          rw [if_pos hms] at h
          exact absurd h (by simp)
        · intro f' t' h
          unfold secPhase at h
          rw [if_pos hms] at h
          injection h with h1 h2
          subst h2
          exact ⟨hv, le_refl _, rfl⟩
      · obtain ⟨hav, halex, hanw⟩ := addSecond_spec t hv
        have hlin : t.lin < (addSecond t).lin := by
          apply lin_lt_of_fields t _ hv hav
          exact halex
        by_cases hwrap : (addSecond t).sec = 0
        · constructor
          · intro f' t' h
            unfold secPhase at h
            rw [if_neg hms, if_pos hwrap] at h
            injection h with h1 h2
            subst h2
            exact ⟨hav, le_of_lt hlin⟩
          · intro f' t' h
            unfold secPhase at h
            rw [if_neg hms, if_pos hwrap] at h
            exact absurd h (by simp)
        · have ihx := ih true (addSecond t) hav
          constructor
          · intro f' t' h
            unfold secPhase at h
            rw [if_neg hms, if_neg hwrap] at h
            obtain ⟨hval, hle⟩ := ihx.1 f' t' h
            exact ⟨hval, le_trans (le_of_lt hlin) hle⟩
          · intro f' t' h
            unfold secPhase at h
            rw [if_neg hms, if_neg hwrap] at h
            obtain ⟨hval, hle, hyr⟩ := ihx.2 f' t' h
            exact ⟨hval, le_trans (le_of_lt hlin) hle, hyr.trans (hanw hwrap).1⟩

/-- The retry loop of `Next`: every outcome is the zero instant or an
instant not before the search start whose year is at most one past the
start year. -/
theorem nextAux_spec (e : CronExpr) (sy : Int) :
    ∀ fuel flag t, t.Valid →
      nextAux e sy fuel flag t = goZeroTime ∨
        (t.lin ≤ (nextAux e sy fuel flag t).lin ∧
          (nextAux e sy fuel flag t).year ≤ sy + 1) := by
  intro fuel
  induction fuel with
  | zero =>
      intro flag t hv
      exact Or.inl rfl
  | succ n ih =>
      intro flag t hv
      unfold nextAux
      by_cases hy : sy + 1 < t.year
      · rw [if_pos hy]
        exact Or.inl rfl
      · rw [if_neg hy]
        cases hm : monthPhase e 13 flag t with
        | retry f1 t1 =>
            dsimp only
            obtain ⟨h1v, h1l⟩ := (monthPhase_spec e 13 flag t hv).1 f1 t1 hm
            rcases ih f1 t1 h1v with hz | ⟨hl, hyb⟩
            · exact Or.inl hz
            · exact Or.inr ⟨le_trans h1l hl, hyb⟩
        | cont f1 t1 =>
            dsimp only
            obtain ⟨h1v, h1l, h1y⟩ := (monthPhase_spec e 13 flag t hv).2 f1 t1 hm
            cases hd : dayPhase e 400 f1 t1 with
            | retry f2 t2 =>
                dsimp only
                obtain ⟨h2v, h2l⟩ := (dayPhase_spec e 400 f1 t1 h1v).1 f2 t2 hd
                rcases ih f2 t2 h2v with hz | ⟨hl, hyb⟩
                · exact Or.inl hz
                · exact Or.inr ⟨le_trans h1l (le_trans h2l hl), hyb⟩
            | cont f2 t2 =>
                dsimp only
                obtain ⟨h2v, h2l, h2y⟩ := (dayPhase_spec e 400 f1 t1 h1v).2 f2 t2 hd
                cases hh : hourPhase e 25 f2 t2 with
                | retry f3 t3 =>
                    dsimp only
                    obtain ⟨h3v, h3l⟩ := (hourPhase_spec e 25 f2 t2 h2v).1 f3 t3 hh
                    rcases ih f3 t3 h3v with hz | ⟨hl, hyb⟩
                    · exact Or.inl hz
                    · exact Or.inr ⟨le_trans h1l (le_trans h2l (le_trans h3l hl)), hyb⟩
                | cont f3 t3 =>
                    dsimp only
                    obtain ⟨h3v, h3l, h3y⟩ := (hourPhase_spec e 25 f2 t2 h2v).2 f3 t3 hh
                    cases hmi : minutePhase e 61 f3 t3 with
                    | retry f4 t4 =>
                        dsimp only
                        obtain ⟨h4v, h4l⟩ := (minutePhase_spec e 61 f3 t3 h3v).1 f4 t4 hmi
                        rcases ih f4 t4 h4v with hz | ⟨hl, hyb⟩
                        · exact Or.inl hz
                        · exact Or.inr ⟨le_trans h1l (le_trans h2l
                            (le_trans h3l (le_trans h4l hl))), hyb⟩
                    | cont f4 t4 =>
                        dsimp only
                        obtain ⟨h4v, h4l, h4y⟩ :=
                          (minutePhase_spec e 61 f3 t3 h3v).2 f4 t4 hmi
                        cases hs : secPhase e 61 f4 t4 with
                        | retry f5 t5 =>
                            dsimp only
                            obtain ⟨h5v, h5l⟩ :=
                              (secPhase_spec e 61 f4 t4 h4v).1 f5 t5 hs
                            rcases ih f5 t5 h5v with hz | ⟨hl, hyb⟩
                            · exact Or.inl hz
                            · exact Or.inr ⟨le_trans h1l (le_trans h2l
                                (le_trans h3l (le_trans h4l (le_trans h5l hl)))), hyb⟩
                        | cont f5 t5 =>
                            dsimp only
                            obtain ⟨h5v, h5l, h5y⟩ :=
                              (secPhase_spec e 61 f4 t4 h4v).2 f5 t5 hs
                            refine Or.inr ⟨le_trans h1l (le_trans h2l
                              (le_trans h3l (le_trans h4l h5l))), ?_⟩
                            rw [h5y, h4y, h3y, h2y, h1y]
                            omega

/-- **C6 (amended)**: for every cron expression and valid instant `t`,
`Next t` is either the zero instant or strictly after `t`; moreover a
non-zero result's year never exceeds one past the year of the search start
(the input truncated to whole seconds plus one second) — beyond that
horizon the search gives up and returns the zero instant. -/
theorem cron_next_monotone (e : CronExpr) (t : GoTime) (hv : t.Valid) :
    e.Next t = goZeroTime ∨
      (t.lin < (e.Next t).lin ∧ (e.Next t).year ≤ (addSecond t).year + 1) := by
  obtain ⟨hbv, hblex, _⟩ := addSecond_spec t hv
  have hblin : t.lin < (addSecond t).lin := lin_lt_of_fields t _ hv hbv hblex
  unfold CronExpr.Next
  rcases nextAux_spec e (addSecond t).year 4000000 false (addSecond t) hbv with
    hz | ⟨hl, hyb⟩
  · exact Or.inl hz
  · exact Or.inr ⟨lt_of_lt_of_le hblin hl, hyb⟩

/-- Witness for `cron_next_monotone`: the expression `0 0 * * *` at
2020-01-01T12:34:56. -/
theorem cron_next_monotone_witness :
    (GoTime.Valid ⟨2020, 1, 1, 12, 34, 56⟩) ∧
    (CronExpr.Next ⟨1, 1, 1, 4294967294, 8190, 127⟩ ⟨2020, 1, 1, 12, 34, 56⟩ =
        goZeroTime ∨
      (GoTime.lin ⟨2020, 1, 1, 12, 34, 56⟩ <
          (CronExpr.Next ⟨1, 1, 1, 4294967294, 8190, 127⟩
            ⟨2020, 1, 1, 12, 34, 56⟩).lin ∧
        (CronExpr.Next ⟨1, 1, 1, 4294967294, 8190, 127⟩
            ⟨2020, 1, 1, 12, 34, 56⟩).year ≤
          (addSecond ⟨2020, 1, 1, 12, 34, 56⟩).year + 1)) :=
  ⟨by decide, cron_next_monotone ⟨1, 1, 1, 4294967294, 8190, 127⟩
    ⟨2020, 1, 1, 12, 34, 56⟩ (by decide)⟩

/-- Counterexample to **C6**'s year clause as stated: `0 0 0 29 2 *`
(every February 29) from 2022-12-31T23:59:59 — the search start is
2023-01-01, so the year cut-off allows 2024, and `Next` returns
2024-02-29T00:00:00, a non-zero instant whose year exceeds the *input*
year by two. -/
theorem cron_next_year_cex :
    NewCronExpr "0 0 0 29 2 *" = .ok ⟨1, 1, 1, 536870912, 4, 127⟩ ∧
    CronExpr.Next ⟨1, 1, 1, 536870912, 4, 127⟩ ⟨2022, 12, 31, 23, 59, 59⟩ =
      ⟨2024, 2, 29, 0, 0, 0⟩ ∧
    CronExpr.Next ⟨1, 1, 1, 536870912, 4, 127⟩ ⟨2022, 12, 31, 23, 59, 59⟩ ≠
      goZeroTime ∧
    (2022 : Int) + 1 <
      (CronExpr.Next ⟨1, 1, 1, 536870912, 4, 127⟩ ⟨2022, 12, 31, 23, 59, 59⟩).year := by
  have hnext : CronExpr.Next ⟨1, 1, 1, 536870912, 4, 127⟩ ⟨2022, 12, 31, 23, 59, 59⟩ =
      ⟨2024, 2, 29, 0, 0, 0⟩ := by decide
  refine ⟨by decide, hnext, ?_, ?_⟩
  · rw [hnext]
    decide
  · rw [hnext]
    decide

end Leaf
